import Mathlib

/-!
A verification development for the home-improvement price-scraper
repository.  Python dictionaries are modelled as association lists over a
`Value` type (`Record`); Python's `re`-based field extractors are modelled
by a small backtracking matcher over the concrete patterns the code uses;
the orchestrator's browser-dependent steps are modelled by outcome
oracles.  All definitions are executable.
-/

/-- A Python value as it occurs in the scraper's product records:
`None`, a string, a number (Python floats are modelled as rationals;
the values the scraper produces are finite decimals), or a list of
strings. -/
inductive Value where
  | vNone
  | vStr (s : String)
  | vNum (q : ℚ)
  | vList (l : List String)
deriving DecidableEq, Repr

/-- A Python dict, modelled as an association list; `List.lookup` (first
occurrence wins) gives the dict lookup. -/
abbrev Record := List (String × Value)

/-- Python `d[k] = v`: replace the value at an existing key (keeping its
position, as CPython dicts do), otherwise append the new key at the end. -/
def setField (r : Record) (k : String) (v : Value) : Record :=
  match r with
  | [] => [(k, v)]
  | (k', v') :: rest =>
      if k' = k then (k', v) :: rest else (k', v') :: setField rest k v

/-- Python `d.update(other)`: assign every key of `other`, in order. -/
def updateRecord (r : Record) (other : Record) : Record :=
  other.foldl (fun acc kv => setField acc kv.1 kv.2) r

theorem lookup_setField_self (r : Record) (k : String) (v : Value) :
    (setField r k v).lookup k = some v := by
  induction r with
  | nil => simp [setField, List.lookup]
  | cons a rest ih =>
      obtain ⟨k', v'⟩ := a
      by_cases h : k' = k
      · subst h; simp [setField, List.lookup]
      · have hb : (k == k') = false := beq_eq_false_iff_ne.mpr (Ne.symm h)
        simp [setField, h, List.lookup, hb, ih]

theorem lookup_setField_other (r : Record) (k k' : String) (v : Value)
    (h : k' ≠ k) : (setField r k v).lookup k' = r.lookup k' := by
  have hb : (k' == k) = false := beq_eq_false_iff_ne.mpr h
  induction r with
  | nil => simp [setField, List.lookup, hb]
  | cons a rest ih =>
      obtain ⟨k₀, v₀⟩ := a
      by_cases h₀ : k₀ = k
      · subst h₀
        simp [setField, List.lookup, hb]
      · simp [setField, h₀, List.lookup, ih]

theorem mem_of_lookup_eq_some {r : Record} {k : String} {v : Value}
    (h : r.lookup k = some v) : (k, v) ∈ r := by
  induction r with
  | nil => simp [List.lookup] at h
  | cons a rest ih =>
      obtain ⟨k₀, v₀⟩ := a
      by_cases hk : k = k₀
      · subst hk
        simp [List.lookup] at h
        subst h
        exact List.mem_cons_self _ _
      · have hb : (k == k₀) = false := beq_eq_false_iff_ne.mpr hk
        simp [List.lookup, hb] at h
        exact List.mem_cons_of_mem _ (ih h)

theorem lookup_eq_none_of_keys (r : Record) (k : String)
    (h : ∀ kv ∈ r, kv.1 ≠ k) : r.lookup k = none := by
  induction r with
  | nil => simp [List.lookup]
  | cons a rest ih =>
      obtain ⟨k₀, v₀⟩ := a
      have hk : (k == k₀) = false :=
        beq_eq_false_iff_ne.mpr (Ne.symm (h (k₀, v₀) (List.mem_cons_self _ _)))
      simp [List.lookup, hk]
      intro a b hab hk2
      exact h (a, b) (List.mem_cons_of_mem _ hab) hk2.symm

/-! ### Python `float()` on strings

Models `float(s)` for finite decimal literals (optional sign, digits with
an optional decimal point, optional exponent, surrounding whitespace).
`inf`/`nan` literals and digit-group underscores are outside the value
domain this development models (no scraper string ever produces them), so
they parse to `none` here. -/

def digitsToNat (ds : List Char) : ℕ :=
  ds.foldl (fun a c => 10 * a + (c.toNat - 48)) 0

def isPySpace (c : Char) : Bool :=
  c = ' ' || c = '\t' || c = '\n' || c = '\x0d' || c = '\x0b' || c = '\x0c'

/-- Parse the optional exponent suffix of a float literal and apply it to
a mantissa given as numerator `n` over denominator `d`; anything but a
complete, correct suffix fails.  The value is built with `Rat.divInt` so
the whole parser evaluates by kernel reduction. -/
def applyExpPart (n : ℤ) (d : ℕ) (rest : List Char) : Option ℚ :=
  match rest with
  | [] => some (Rat.divInt n d)
  | c :: t =>
      if c = 'e' || c = 'E' then
        let (eneg, t') : Bool × List Char :=
          match t with
          | '-' :: u => (true, u)
          | '+' :: u => (false, u)
          | _ => (false, t)
        let eds := t'.takeWhile Char.isDigit
        if eds = [] || t'.dropWhile Char.isDigit ≠ [] then none
        else if eneg then some (Rat.divInt n (d * 10 ^ digitsToNat eds))
        else some (Rat.divInt (n * 10 ^ digitsToNat eds) d)
      else none

def pyFloatChars (cs : List Char) : Option ℚ :=
  let cs₁ := cs.dropWhile isPySpace
  let cs₂ := (cs₁.reverse.dropWhile isPySpace).reverse
  let (sgn, cs₃) : ℤ × List Char :=
    match cs₂ with
    | c :: t =>
        if c = '-' then (-1, t) else if c = '+' then (1, t) else (1, c :: t)
    | [] => (1, [])
  let intPart := cs₃.takeWhile Char.isDigit
  let rest₁ := cs₃.dropWhile Char.isDigit
  match rest₁ with
  | [] => if intPart = [] then none else some (Rat.divInt (sgn * digitsToNat intPart) 1)
  | '.' :: r₂ =>
      let frac := r₂.takeWhile Char.isDigit
      let rest₂ := r₂.dropWhile Char.isDigit
      if intPart = [] ∧ frac = [] then none
      else
        applyExpPart
          (sgn * (digitsToNat intPart * 10 ^ frac.length + digitsToNat frac))
          (10 ^ frac.length) rest₂
  | _ =>
      if intPart = [] then none
      else applyExpPart (sgn * digitsToNat intPart) 1 rest₁

def pyFloatOfString (s : String) : Option ℚ :=
  pyFloatChars s.toList

/-- Python `float(v)` on a record value (`TypeError` for non-str
non-number values becomes `none`). -/
def coerceFloat : Value → Option ℚ
  | Value.vNum q => some q
  | Value.vStr s => pyFloatOfString s
  | _ => none

example : pyFloatOfString "1234.50" = some (Rat.divInt 2469 2) := by decide
example : pyFloatOfString "not-a-number" = none := by decide
example : pyFloatOfString "199.99" = some (Rat.divInt 19999 100) := by decide
example : pyFloatOfString "0.00" = some 0 := by decide
example : pyFloatOfString "12" = some 12 := by decide
example : pyFloatOfString " 2.5e2 " = some 250 := by decide
example : pyFloatOfString "" = none := by decide
example : pyFloatOfString "1." = some 1 := by decide
example : pyFloatOfString ".5" = some (Rat.divInt 1 2) := by decide

/-! ### A backtracking matcher for the scraper's regex patterns

The price and dimension patterns the code uses are sequences of literal
characters and quantified character classes, with one or two capture
groups whose contents are themselves such sequences.  `simpleCands`
enumerates, in Python's backtracking preference order (greedy: longest
first), every way such a sequence can match a prefix of the input,
returning the consumed prefix and the remaining suffix.  Patterns with
groups are matched by composing candidate lists, and `re.search` is the
first position (leftmost) at which a match exists. -/

inductive CClass where
  | digit
  | space
  | anyIn (cs : List Char)
  | anyChar
deriving DecidableEq, Repr

/-- `\d` and `\s` are modelled over the ASCII ranges the scraped pages
use; `anyChar` is `.` (anything but a newline). -/
def CClass.test : CClass → Char → Bool
  | .digit, c => c.isDigit
  | .space, c => isPySpace c
  | .anyIn cs, c => cs.contains c
  | .anyChar, c => c ≠ '\n'

inductive RItem where
  | one (k : CClass)
  | opt (k : CClass)
  | star (k : CClass)
  | plus (k : CClass)
deriving DecidableEq, Repr

/-- The ways `X*` can consume a prefix of the input, greedy (longest)
first, as (consumed, rest) pairs. -/
def starSplits (k : CClass) : List Char → List (List Char × List Char)
  | [] => [([], [])]
  | c :: s =>
      if k.test c then
        ((starSplits k s).map (fun pr => (c :: pr.1, pr.2))) ++ [([], c :: s)]
      else [([], c :: s)]

/-- All prefix matches of a quantified-class sequence against the input,
as (consumed, rest) pairs, in Python's backtracking preference order
(greedy: a quantifier consumes as much as possible first). -/
def simpleCands : List RItem → List Char → List (List Char × List Char)
  | [], s => [([], s)]
  | RItem.one k :: rest, s =>
      match s with
      | [] => []
      | c :: s' =>
          if k.test c then (simpleCands rest s').map (fun pr => (c :: pr.1, pr.2))
          else []
  | RItem.opt k :: rest, s =>
      match s with
      | [] => simpleCands rest []
      | c :: s' =>
          if k.test c then
            ((simpleCands rest s').map (fun pr => (c :: pr.1, pr.2))) ++
              simpleCands rest (c :: s')
          else simpleCands rest (c :: s')
  | RItem.star k :: rest, s =>
      (starSplits k s).flatMap (fun sp =>
        (simpleCands rest sp.2).map (fun pr => (sp.1 ++ pr.1, pr.2)))
  | RItem.plus k :: rest, s =>
      match s with
      | [] => []
      | c :: s' =>
          if k.test c then
            (starSplits k s').flatMap (fun sp =>
              (simpleCands rest sp.2).map (fun pr => (c :: (sp.1 ++ pr.1), pr.2)))
          else []

def firstSome : List (Option α) → Option α
  | [] => none
  | some a :: _ => some a
  | none :: t => firstSome t

/-- Match a one-group pattern `pre (g) post` at the start of `s`,
returning the group's capture for the first match in backtracking
order. -/
def matchOneGrp (pre g post : List RItem) (s : List Char) : Option String :=
  firstSome ((simpleCands pre s).map (fun a =>
    firstSome ((simpleCands g a.2).map (fun b =>
      if simpleCands post b.2 = [] then none
      else some (String.mk b.1)))))

/-- `re.search` for a one-group pattern: try every start position, left
to right. -/
def searchOneGrp (pre g post : List RItem) : List Char → Option String
  | [] => matchOneGrp pre g post []
  | c :: t =>
      match matchOneGrp pre g post (c :: t) with
      | some r => some r
      | none => searchOneGrp pre g post t

/-- Match a two-group pattern `pre (g1) mid (g2) post` at the start of
`s`, returning both captures. -/
def matchTwoGrp (pre g1 mid g2 post : List RItem) (s : List Char) :
    Option (String × String) :=
  firstSome ((simpleCands pre s).map (fun a =>
    firstSome ((simpleCands g1 a.2).map (fun b =>
      firstSome ((simpleCands mid b.2).map (fun c =>
        firstSome ((simpleCands g2 c.2).map (fun d =>
          if simpleCands post d.2 = [] then none
          else some (String.mk b.1, String.mk d.1)))))))))

def searchTwoGrp (pre g1 mid g2 post : List RItem) :
    List Char → Option (String × String)
  | [] => matchTwoGrp pre g1 mid g2 post []
  | c :: t =>
      match matchTwoGrp pre g1 mid g2 post (c :: t) with
      | some r => some r
      | none => searchTwoGrp pre g1 mid g2 post t

/-- A case-sensitive literal string, one pattern item per character. -/
def litSeq (s : String) : List RItem :=
  s.toList.map (fun c => RItem.one (CClass.anyIn [c]))

/-- A literal string under `re.IGNORECASE`: each character matches its
lower- or upper-case form. -/
def litSeqCI (s : String) : List RItem :=
  s.toList.map (fun c => RItem.one (CClass.anyIn [c.toLower, c.toUpper]))

/-- The capture group `(\d+,?\d*\.?\d+)` shared by all four price
patterns. -/
def priceGrp : List RItem :=
  [RItem.plus CClass.digit, RItem.opt (CClass.anyIn [',']),
   RItem.star CClass.digit, RItem.opt (CClass.anyIn ['.']),
   RItem.plus CClass.digit]

/-- The four price patterns of `extract_price`, in source order, as
(pre, group, post):
`\$?(...)`, `(...)\s*\$`, `Price:\s*\$?(...)`, `Cost:\s*\$?(...)`. -/
def pricePatterns : List (List RItem × List RItem × List RItem) :=
  [([RItem.opt (CClass.anyIn ['$'])], priceGrp, []),
   ([], priceGrp, [RItem.star CClass.space, RItem.one (CClass.anyIn ['$'])]),
   (litSeq "Price:" ++ [RItem.star CClass.space, RItem.opt (CClass.anyIn ['$'])],
     priceGrp, []),
   (litSeq "Cost:" ++ [RItem.star CClass.space, RItem.opt (CClass.anyIn ['$'])],
     priceGrp, [])]

/-- `text.replace(',', '')`. -/
def stripCommas (cs : List Char) : List Char :=
  cs.filter (fun c => c ≠ ',')

def tryPricePatterns :
    List (List RItem × List RItem × List RItem) → List Char → Option ℚ
  | [], _ => none
  | (pre, g, post) :: ps, s =>
      match searchOneGrp pre g post s with
      | some cap =>
          match pyFloatChars (stripCommas cap.toList) with
          | some q => some q
          | none => tryPricePatterns ps s
      | none => tryPricePatterns ps s

/-- `helpers.extract_price`: empty text fails, otherwise the patterns are
tried in order against the comma-stripped text and the first match's
group is parsed (a parse failure falls through to the next pattern). -/
def extract_price (text : String) : Option ℚ :=
  if text = "" then none
  else tryPricePatterns pricePatterns (stripCommas text.toList)

/-- The capture group `(\d+\.?\d*)` shared by the dimension patterns. -/
def dimGrp : List RItem :=
  [RItem.plus CClass.digit, RItem.opt (CClass.anyIn ['.']),
   RItem.star CClass.digit]

/-- `[x×]` under `re.IGNORECASE`. -/
def xCls : CClass := CClass.anyIn ['x', 'X', '×']

/-- The four dimension patterns of `extract_dimensions`, in source order,
as (pre, group1, mid, group2, post); all are compiled with
`re.IGNORECASE`. -/
def dimPatterns :
    List (List RItem × List RItem × List RItem × List RItem × List RItem) :=
  [([], dimGrp,
     [RItem.star CClass.space, RItem.one xCls, RItem.star CClass.space],
     dimGrp, []),
   (litSeqCI "Width:" ++ [RItem.star CClass.space], dimGrp,
     [RItem.plus CClass.anyChar] ++ litSeqCI "Height:" ++
       [RItem.star CClass.space],
     dimGrp, []),
   ([], dimGrp,
     [RItem.star CClass.space, RItem.one (CClass.anyIn ['w', 'W']),
      RItem.star CClass.space, RItem.one xCls, RItem.star CClass.space],
     dimGrp,
     [RItem.star CClass.space, RItem.one (CClass.anyIn ['h', 'H'])]),
   ([], dimGrp,
     [RItem.opt (CClass.anyIn ['"']), RItem.star CClass.space,
      RItem.one xCls, RItem.star CClass.space],
     dimGrp, [RItem.opt (CClass.anyIn ['"'])])]

def tryDimPatterns :
    List (List RItem × List RItem × List RItem × List RItem × List RItem) →
      List Char → Record → Record
  | [], _, d => d
  | (pre, g1, mid, g2, post) :: ps, s, d =>
      match searchTwoGrp pre g1 mid g2 post s with
      | some (c1, c2) =>
          match pyFloatChars c1.toList with
          | none => tryDimPatterns ps s d
          | some w =>
              let d' := setField d "width" (Value.vNum w)
              match pyFloatChars c2.toList with
              | none => tryDimPatterns ps s d'
              | some h => setField d' "height" (Value.vNum h)
      | none => tryDimPatterns ps s d

/-- `helpers.extract_dimensions`: starts from `{width: None, height:
None}`, tries the patterns in order and, on the first match whose two
groups parse, sets both fields (a partial parse failure keeps the width
already assigned, as in the source's try block). -/
def extract_dimensions (text : String) : Record :=
  tryDimPatterns dimPatterns text.toList
    [("width", Value.vNone), ("height", Value.vNone)]

def cleanTextAllowed (c : Char) : Bool :=
  (c.isAlpha || c.isDigit || c = '_') || isPySpace c || c = '-' || c = '.' ||
    c = '$' || c = '(' || c = ')' || c = '/'

/-- Collapse every whitespace run to a single space (`re.sub(r'\s+', ' ', _)`);
the flag records whether the previous character was whitespace. -/
def collapseWsGo : Bool → List Char → List Char
  | _, [] => []
  | prevSpace, c :: t =>
      if isPySpace c then
        if prevSpace then collapseWsGo true t
        else ' ' :: collapseWsGo true t
      else c :: collapseWsGo false t

def collapseWs (l : List Char) : List Char :=
  collapseWsGo false l

/-- `helpers.clean_text`: collapse whitespace, strip, drop characters
outside the whitelist `[\w\s\-\.\$\(\)\/]`. -/
def clean_text (text : String) : String :=
  if text = "" then ""
  else
    let l₁ := collapseWs text.toList
    let l₂ := ((l₁.dropWhile isPySpace).reverse.dropWhile isPySpace).reverse
    String.mk (l₂.filter cleanTextAllowed)

example : extract_price "Price: $1,234.50" = some (Rat.divInt 2469 2) := by decide
example : extract_price "no price here" = none := by decide
example : extract_price "$0.00" = some 0 := by decide
example : extract_price "$199.99" = some (Rat.divInt 19999 100) := by decide
example : extract_price "20 Price: 30" = some 20 := by decide
example : extract_price "" = none := by decide
example : extract_price "12 $" = some 12 := by decide
example : extract_dimensions "36\" x 48\"" =
    [("width", Value.vNum 36), ("height", Value.vNum 48)] := by decide
example : extract_dimensions "no dims" =
    [("width", Value.vNone), ("height", Value.vNone)] := by decide
example : extract_dimensions "30\" x 40\" vinyl" =
    [("width", Value.vNum 30), ("height", Value.vNum 40)] := by decide
example : clean_text "  a   b?  " = "a b" := by decide

/-! ### Validation and normalization (`helpers.py`) -/

/-- Python truthiness of a record value. -/
def pyTruthy : Value → Bool
  | Value.vNone => false
  | Value.vStr s => s ≠ ""
  | Value.vNum q => q ≠ 0
  | Value.vList l => l ≠ []

/-- Truthiness of `d.get(k)`: false for a missing key, `None`, `0.0`,
`""` or `[]`. -/
def pyTruthyOpt : Option Value → Bool
  | none => false
  | some v => pyTruthy v

/-- `helpers.validate_product_data`: requires `product_type` and `price`
to be present and not `None`, and `float(price)` to succeed. -/
def validate_product_data (product : Record) : Bool :=
  match product.lookup "product_type" with
  | none => false
  | some v =>
      if v = Value.vNone then false
      else
        match product.lookup "price" with
        | none => false
        | some w =>
            if w = Value.vNone then false
            else (coerceFloat w).isSome

/-- The priority-ordered alias table of `normalize_product_data`, in the
source's iteration order. -/
def field_mapping : List (String × List String) :=
  [("product_type", ["type", "product_type", "category"]),
   ("price", ["price", "cost", "total_price", "amount"]),
   ("width", ["width", "w", "dimension_width"]),
   ("height", ["height", "h", "dimension_height"]),
   ("material", ["material", "frame_material", "construction"]),
   ("color", ["color", "finish", "paint_color"]),
   ("brand", ["brand", "manufacturer", "make"]),
   ("model", ["model", "model_number", "part_number"]),
   ("features", ["features", "options", "upgrades"]),
   ("delivery_time", ["delivery", "lead_time", "shipping_time"])]

/-- First alias of a standard field that is present with a non-`None`
value. -/
def firstAlias (product : Record) : List String → Option Value
  | [] => none
  | a :: rest =>
      match product.lookup a with
      | some v => if v = Value.vNone then firstAlias product rest else some v
      | none => firstAlias product rest

/-- `helpers.normalize_product_data`: remap raw keys through the alias
table (building the dict in the table's order), then coerce a string
price through `extract_price` (which may leave `None`). -/
def normalize_product_data (product : Record) : Record :=
  let base := field_mapping.filterMap (fun sf =>
    (firstAlias product sf.2).map (fun v => (sf.1, v)))
  match base.lookup "price" with
  | some (Value.vStr s) =>
      base.map (fun kv =>
        if kv.1 = "price" then
          (kv.1, match extract_price s with
                 | some q => Value.vNum q
                 | none => Value.vNone)
        else kv)
  | _ => base

example :
    normalize_product_data [("type", Value.vStr "windows"), ("cost", Value.vNum 100)] =
      [("product_type", Value.vStr "windows"), ("price", Value.vNum 100)] := by decide
example :
    normalize_product_data [("price", Value.vStr "$1,234.50")] =
      [("price", Value.vNum (Rat.divInt 2469 2))] := by decide
example :
    normalize_product_data [("delivery_time", Value.vStr "3 weeks")] = [] := by decide
example :
    normalize_product_data [("lead_time", Value.vStr "3 weeks")] =
      [("delivery_time", Value.vStr "3 weeks")] := by decide

/-- C4: `validate_product_data` returns false exactly when `product_type`
is missing (absent or `None`), `price` is missing (absent or `None`), or
the price value does not coerce to a number; and the record
`{product_type: "windows", price: "not-a-number"}` yields false. -/
theorem validate_product_data_spec :
    (∀ product : Record,
      validate_product_data product = true ↔
        ((∃ v, product.lookup "product_type" = some v ∧ v ≠ Value.vNone) ∧
         (∃ w, product.lookup "price" = some w ∧ w ≠ Value.vNone ∧
           (coerceFloat w).isSome = true))) ∧
    validate_product_data
      [("product_type", Value.vStr "windows"),
       ("price", Value.vStr "not-a-number")] = false := by
  constructor
  · intro product
    cases hpt : product.lookup "product_type" with
    | none => simp [validate_product_data, hpt]
    | some v =>
        cases hpr : product.lookup "price" with
        | none =>
            by_cases hv : v = Value.vNone <;>
              simp [validate_product_data, hpt, hpr, hv]
        | some w =>
            by_cases hv : v = Value.vNone
            · simp [validate_product_data, hpt, hpr, hv]
            · by_cases hw : w = Value.vNone
              · simp [validate_product_data, hpt, hpr, hv, hw]
              · simp [validate_product_data, hpt, hpr, hv, hw]
  · decide

/-- Witness for C4: a record with both fields and a numeric price
validates, by the characterization. -/
theorem validate_product_data_spec_witness :
    validate_product_data
      [("product_type", Value.vStr "windows"), ("price", Value.vNum 100)] = true :=
  (validate_product_data_spec.1 _).mpr
    ⟨⟨Value.vStr "windows", by decide, by decide⟩,
     ⟨Value.vNum 100, by decide, by decide, by decide⟩⟩

/-- The canonical field set of a normalized record, per the data model. -/
def canonicalFields : List String :=
  ["product_type", "price", "width", "height", "material", "color",
   "brand", "model", "features", "delivery_time", "supplier"]

theorem firstAlias_found (product : Record) (a : String) (rest : List String)
    (v : Value) (h : product.lookup a = some v) (hv : v ≠ Value.vNone) :
    firstAlias product (a :: rest) = some v := by
  simp [firstAlias, h, hv]

theorem firstAlias_absent (product : Record) (a : String) (rest : List String)
    (h : product.lookup a = none) :
    firstAlias product (a :: rest) = firstAlias product rest := by
  simp [firstAlias, h]

/-- C2: `normalize_product_data` is idempotent on an already-canonical
record: for every record whose keys are exactly the canonical field set,
with non-`None` values and a numeric price, applying it twice yields the
same mapping as applying it once. -/
theorem normalize_product_data_idempotent (r : Record)
    (hkeys : ∀ kv ∈ r, kv.1 ∈ canonicalFields)
    (hall : ∀ k ∈ canonicalFields, ∃ v, r.lookup k = some v)
    (hnn : ∀ kv ∈ r, kv.2 ≠ Value.vNone)
    (hq : ∃ q, r.lookup "price" = some (Value.vNum q)) :
    normalize_product_data (normalize_product_data r) =
      normalize_product_data r := by
  have hnone : ∀ a : String, a ∉ canonicalFields → r.lookup a = none := by
    intro a ha
    exact lookup_eq_none_of_keys r a (fun kv hkv h => ha (h ▸ hkeys kv hkv))
  have hval : ∀ k v, r.lookup k = some v → v ≠ Value.vNone := by
    intro k v h
    exact hnn (k, v) (mem_of_lookup_eq_some h)
  obtain ⟨vpt, hvpt⟩ := hall "product_type" (by decide)
  obtain ⟨vw, hvw⟩ := hall "width" (by decide)
  obtain ⟨vh, hvh⟩ := hall "height" (by decide)
  obtain ⟨vm, hvm⟩ := hall "material" (by decide)
  obtain ⟨vc, hvc⟩ := hall "color" (by decide)
  obtain ⟨vb, hvb⟩ := hall "brand" (by decide)
  obtain ⟨vmo, hvmo⟩ := hall "model" (by decide)
  obtain ⟨vf, hvf⟩ := hall "features" (by decide)
  obtain ⟨q, hq⟩ := hq
  have a1 : firstAlias r ["type", "product_type", "category"] = some vpt := by
    rw [firstAlias_absent _ _ _ (hnone "type" (by decide))]
    exact firstAlias_found _ _ _ _ hvpt (hval _ _ hvpt)
  have a2 : firstAlias r ["price", "cost", "total_price", "amount"] =
      some (Value.vNum q) :=
    firstAlias_found _ _ _ _ hq (by simp)
  have a3 : firstAlias r ["width", "w", "dimension_width"] = some vw :=
    firstAlias_found _ _ _ _ hvw (hval _ _ hvw)
  have a4 : firstAlias r ["height", "h", "dimension_height"] = some vh :=
    firstAlias_found _ _ _ _ hvh (hval _ _ hvh)
  have a5 : firstAlias r ["material", "frame_material", "construction"] = some vm :=
    firstAlias_found _ _ _ _ hvm (hval _ _ hvm)
  have a6 : firstAlias r ["color", "finish", "paint_color"] = some vc :=
    firstAlias_found _ _ _ _ hvc (hval _ _ hvc)
  have a7 : firstAlias r ["brand", "manufacturer", "make"] = some vb :=
    firstAlias_found _ _ _ _ hvb (hval _ _ hvb)
  have a8 : firstAlias r ["model", "model_number", "part_number"] = some vmo :=
    firstAlias_found _ _ _ _ hvmo (hval _ _ hvmo)
  have a9 : firstAlias r ["features", "options", "upgrades"] = some vf :=
    firstAlias_found _ _ _ _ hvf (hval _ _ hvf)
  have a10 : firstAlias r ["delivery", "lead_time", "shipping_time"] = none := by
    rw [firstAlias_absent _ _ _ (hnone "delivery" (by decide)),
      firstAlias_absent _ _ _ (hnone "lead_time" (by decide)),
      firstAlias_absent _ _ _ (hnone "shipping_time" (by decide))]
    rfl
  have hbase : normalize_product_data r =
      [("product_type", vpt), ("price", Value.vNum q), ("width", vw),
       ("height", vh), ("material", vm), ("color", vc), ("brand", vb),
       ("model", vmo), ("features", vf)] := by
    unfold normalize_product_data
    simp only [field_mapping, List.filterMap, a1, a2, a3, a4, a5, a6, a7, a8,
      a9, a10, Option.map_some, Option.map_none]
    simp [List.lookup]
  rw [hbase]
  have hvptne := hval _ _ hvpt
  have hvwne := hval _ _ hvw
  have hvhne := hval _ _ hvh
  have hvmne := hval _ _ hvm
  have hvcne := hval _ _ hvc
  have hvbne := hval _ _ hvb
  have hvmone := hval _ _ hvmo
  have hvfne := hval _ _ hvf
  unfold normalize_product_data
  simp only [field_mapping, List.filterMap, firstAlias, List.lookup]
  simp [hvptne, hvwne, hvhne, hvmne, hvcne, hvbne, hvmone, hvfne]
  rfl

/-- Witness for C2: idempotence at a concrete canonical record. -/
theorem normalize_product_data_idempotent_witness :
    normalize_product_data (normalize_product_data
      [("product_type", Value.vStr "windows"), ("price", Value.vNum 100),
       ("width", Value.vNum 36), ("height", Value.vNum 48),
       ("material", Value.vStr "vinyl"), ("color", Value.vStr "white"),
       ("brand", Value.vStr "Acme"), ("model", Value.vStr "A1"),
       ("features", Value.vList ["low-e"]), ("delivery_time", Value.vStr "3 weeks"),
       ("supplier", Value.vStr "Supplier 1")]) =
    normalize_product_data
      [("product_type", Value.vStr "windows"), ("price", Value.vNum 100),
       ("width", Value.vNum 36), ("height", Value.vNum 48),
       ("material", Value.vStr "vinyl"), ("color", Value.vStr "white"),
       ("brand", Value.vStr "Acme"), ("model", Value.vStr "A1"),
       ("features", Value.vList ["low-e"]), ("delivery_time", Value.vStr "3 weeks"),
       ("supplier", Value.vStr "Supplier 1")] :=
  normalize_product_data_idempotent _
    (by decide)
    (by
      intro k hk
      simp only [canonicalFields, List.mem_cons, List.not_mem_nil, or_false] at hk
      rcases hk with rfl | rfl | rfl | rfl | rfl | rfl | rfl | rfl | rfl | rfl | rfl <;>
        exact ⟨_, rfl⟩)
    (by decide)
    ⟨100, rfl⟩

/-! ### Aggregation (`data_handler.py`) -/

/-- Stamp and concatenate, tracking the dataset index `i` and the running
count `k` of stamping calls; `ts k` is the value `datetime.now().isoformat()`
returns at the k-th call. -/
def combineGo (supplier_names : List String) (ts : Nat → String) :
    Nat → Nat → List (List Record) → List Record
  | _, _, [] => []
  | i, k, ds :: rest =>
      let name := supplier_names.getD i ("Supplier_" ++ toString (i + 1))
      (ds.enum.map (fun jv =>
        setField (setField jv.2 "supplier" (Value.vStr name))
          "scraped_at" (Value.vStr (ts (k + jv.1))))) ++
        combineGo supplier_names ts (i + 1) (k + ds.length) rest

/-- `DataHandler.combine_datasets`: every record of the i-th dataset gets
`supplier` set to the i-th name (or the `Supplier_{i+1}` fallback when
names run out) and `scraped_at` set to a fresh timestamp, and the stamped
records are concatenated in order. -/
def combine_datasets (datasets : List (List Record))
    (supplier_names : List String) (ts : Nat → String) : List Record :=
  combineGo supplier_names ts 0 0 datasets

example :
    combine_datasets [[[("price", Value.vNum 1)]], [[], []]] ["A"]
        (fun k => toString k) =
      [[("price", Value.vNum 1), ("supplier", Value.vStr "A"),
        ("scraped_at", Value.vStr "0")],
       [("supplier", Value.vStr "Supplier_2"), ("scraped_at", Value.vStr "1")],
       [("supplier", Value.vStr "Supplier_2"), ("scraped_at", Value.vStr "2")]] := by
  decide

theorem combineGo_length (supplier_names : List String) (ts : Nat → String)
    (datasets : List (List Record)) :
    ∀ i k, (combineGo supplier_names ts i k datasets).length =
      (datasets.map List.length).sum := by
  induction datasets with
  | nil => intro i k; simp [combineGo]
  | cons ds rest ih =>
      intro i k
      simp [combineGo, List.enum_length, ih]

/-- Counterexample to C7 as stated: with the empty string supplied as a
supplier name, the output record's `supplier` field is the empty string —
not a non-empty supplier name — so "every record carries a non-empty
supplier field" fails for this input. -/
theorem combine_datasets_counterexample :
    combine_datasets [[[]]] [""] (fun _ => "2024-01-01T00:00:00") =
      [[("supplier", Value.vStr ""),
        ("scraped_at", Value.vStr "2024-01-01T00:00:00")]] ∧
    pyTruthyOpt (([("supplier", Value.vStr ""),
        ("scraped_at", Value.vStr "2024-01-01T00:00:00")] : Record).lookup
        "supplier") = false := by
  constructor
  · decide
  · decide

/-- C7 (amended): the combined list's length is the sum of the input
dataset lengths and, provided the supplied supplier names are non-empty
strings, every output record carries a non-empty supplier field — the
corresponding supplier name or the generated `Supplier_{i+1}` fallback.
(The amendment adds the non-emptiness proviso on the supplied names: the
code stamps whatever name is given, including an empty one.) -/
theorem combine_datasets_spec (datasets : List (List Record))
    (supplier_names : List String) (ts : Nat → String)
    (hnames : ∀ n ∈ supplier_names, n ≠ "") :
    (combine_datasets datasets supplier_names ts).length =
      (datasets.map List.length).sum ∧
    ∀ rec ∈ combine_datasets datasets supplier_names ts,
      ∃ m, rec.lookup "supplier" = some (Value.vStr m) ∧ m ≠ "" := by
  constructor
  · exact combineGo_length supplier_names ts datasets 0 0
  · have main : ∀ (dss : List (List Record)) (i k : ℕ),
        ∀ rec ∈ combineGo supplier_names ts i k dss,
          ∃ m, rec.lookup "supplier" = some (Value.vStr m) ∧ m ≠ "" := by
      intro dss
      induction dss with
      | nil => intro i k rec h; simp [combineGo] at h
      | cons ds rest ih =>
          intro i k rec h
          simp only [combineGo, List.mem_append, List.mem_map] at h
          rcases h with ⟨jv, _, rfl⟩ | h
          · refine ⟨supplier_names.getD i ("Supplier_" ++ toString (i + 1)), ?_, ?_⟩
            · rw [lookup_setField_other _ _ _ _ (by decide),
                lookup_setField_self]
            · rcases hg : supplier_names.get? i with _ | n
              · rw [List.getD_eq_getElem?_getD, ← List.get?_eq_getElem?, hg]
                intro hempty
                have hlen := congrArg String.length hempty
                rw [Option.getD_none, String.length_append] at hlen
                have h9 : ("Supplier_" : String).length = 9 := rfl
                have h0 : ("" : String).length = 0 := rfl
                omega
              · rw [List.getD_eq_getElem?_getD, ← List.get?_eq_getElem?, hg]
                exact hnames n (List.get?_mem hg)
          · exact ih (i + 1) (k + ds.length) rec h
    exact main datasets 0 0

/-- Witness for C7 (amended) at concrete datasets and names. -/
theorem combine_datasets_spec_witness :
    (combine_datasets [[[("price", Value.vNum 1)]], [[], []]] ["A"]
        (fun k => toString k)).length = 3 ∧
    ∀ rec ∈ combine_datasets [[[("price", Value.vNum 1)]], [[], []]] ["A"]
        (fun k => toString k),
      ∃ m, rec.lookup "supplier" = some (Value.vStr m) ∧ m ≠ "" := by
  have h := combine_datasets_spec [[[("price", Value.vNum 1)]], [[], []]] ["A"]
    (fun k => toString k) (by intro n hn; simp at hn; subst hn; decide)
  exact ⟨h.1, h.2⟩

/-! ### Summary report (`data_handler.create_summary_report`)

`pandas` operations are modelled on the value domain the scraper
produces: the price column on numeric values, the supplier /
`scraped_at` / `product_type` columns on the stamped values.  Distinct
values keep first-appearance order; the ordering `value_counts` applies
to type counts is not modelled. -/

def uniqueFirstGo : List Value → List Value → List Value
  | _, [] => []
  | seen, v :: t =>
      if v ∈ seen then uniqueFirstGo seen t
      else v :: uniqueFirstGo (v :: seen) t

/-- Least element of a nonempty rational list (0 for an empty one, a case
`create_summary_report` never evaluates). -/
def listMinQ : List ℚ → ℚ
  | [] => 0
  | x :: xs => xs.foldl (fun a b => if a ≤ b then a else b) x

def listMaxQ : List ℚ → ℚ
  | [] => 0
  | x :: xs => xs.foldl (fun a b => if a ≤ b then b else a) x

/-- Insertion sort on rationals (what value the median picks depends only
on the sorted order, not the sorting algorithm pandas uses). -/
def insSorted (x : ℚ) : List ℚ → List ℚ
  | [] => [x]
  | y :: t => if x ≤ y then x :: y :: t else y :: insSorted x t

def sortQ : List ℚ → List ℚ
  | [] => []
  | x :: t => insSorted x (sortQ t)

/-- `pandas` median: middle element of the sorted values, or the mean of
the two middle elements for an even count. -/
def listMedianQ (l : List ℚ) : ℚ :=
  let s := sortQ l
  let n := l.length
  if n % 2 = 1 then s.getD (n / 2) 0
  else (s.getD (n / 2 - 1) 0 + s.getD (n / 2) 0) / 2

def listMinStr : List String → Option Value
  | [] => none
  | x :: t => some (Value.vStr (t.foldl (fun a b => if a ≤ b then a else b) x))

def listMaxStr : List String → Option Value
  | [] => none
  | x :: t => some (Value.vStr (t.foldl (fun a b => if a ≤ b then b else a) x))

/-- The numeric price column of a dataset. -/
def pricesOf (data : List Record) : List ℚ :=
  data.filterMap (fun r =>
    match r.lookup "price" with
    | some (Value.vNum q) => some q
    | _ => none)

structure PriceAnalysis where
  min_price : ℚ
  max_price : ℚ
  avg_price : ℚ
  median_price : ℚ
deriving Repr

structure SummaryReport where
  total_products : ℕ
  suppliers : List Value
  date_start : Option Value
  date_end : Option Value
  price_analysis : Option PriceAnalysis
  product_types : List (Value × ℕ)
deriving Repr

/-- `DataHandler.create_summary_report`: row count, distinct suppliers,
`scraped_at` range, and — when a price column exists — min/max/mean/median
of the prices; when a `product_type` column exists, counts per type. -/
def create_summary_report (data : List Record) : SummaryReport :=
  let prices := pricesOf data
  let scraped := data.filterMap (fun r =>
    match r.lookup "scraped_at" with
    | some (Value.vStr s) => some s
    | _ => none)
  let types := data.filterMap (fun r => r.lookup "product_type")
  { total_products := data.length
    suppliers := uniqueFirstGo [] (data.filterMap (fun r => r.lookup "supplier"))
    date_start := listMinStr scraped
    date_end := listMaxStr scraped
    price_analysis :=
      if data.any (fun r => (r.lookup "price").isSome) then
        some { min_price := listMinQ prices
               max_price := listMaxQ prices
               avg_price := prices.sum / prices.length
               median_price := listMedianQ prices }
      else none
    product_types :=
      (uniqueFirstGo [] types).map (fun v =>
        (v, (data.filter (fun r => r.lookup "product_type" = some v)).length)) }

theorem listMinQ_le {l : List ℚ} {x : ℚ} (hx : x ∈ l) : listMinQ l ≤ x := by
  obtain ⟨y, ys, rfl⟩ : ∃ y ys, l = y :: ys := by
    cases l with
    | nil => simp at hx
    | cons y ys => exact ⟨y, ys, rfl⟩
  show List.foldl (fun a b => if a ≤ b then a else b) y ys ≤ x
  have main : ∀ (t : List ℚ) (a : ℚ),
      List.foldl (fun a b => if a ≤ b then a else b) a t ≤ a ∧
      ∀ z ∈ t, List.foldl (fun a b => if a ≤ b then a else b) a t ≤ z := by
    intro t
    induction t with
    | nil => intro a; exact ⟨le_refl a, by simp⟩
    | cons b t ih =>
        intro a
        constructor
        · by_cases hab : a ≤ b
          · simpa [hab] using (ih a).1
          · simp only [List.foldl_cons, if_neg hab]
            exact le_trans (ih b).1 (le_of_not_le hab)
        · intro z hz
          rcases List.mem_cons.mp hz with rfl | hz
          · by_cases hab : a ≤ z
            · simp only [List.foldl_cons, if_pos hab]
              exact le_trans (ih a).1 hab
            · simpa [hab] using (ih z).1
          · by_cases hab : a ≤ b
            · simpa [hab] using (ih a).2 z hz
            · simpa [hab] using (ih b).2 z hz
  rcases List.mem_cons.mp hx with rfl | hx
  · exact (main ys x).1
  · exact (main ys y).2 x hx

theorem le_listMaxQ {l : List ℚ} {x : ℚ} (hx : x ∈ l) : x ≤ listMaxQ l := by
  obtain ⟨y, ys, rfl⟩ : ∃ y ys, l = y :: ys := by
    cases l with
    | nil => simp at hx
    | cons y ys => exact ⟨y, ys, rfl⟩
  show x ≤ List.foldl (fun a b => if a ≤ b then b else a) y ys
  have main : ∀ (t : List ℚ) (a : ℚ),
      a ≤ List.foldl (fun a b => if a ≤ b then b else a) a t ∧
      ∀ z ∈ t, z ≤ List.foldl (fun a b => if a ≤ b then b else a) a t := by
    intro t
    induction t with
    | nil => intro a; exact ⟨le_refl a, by simp⟩
    | cons b t ih =>
        intro a
        constructor
        · by_cases hab : a ≤ b
          · simp only [List.foldl_cons, if_pos hab]
            exact le_trans hab (ih b).1
          · simpa [hab] using (ih a).1
        · intro z hz
          rcases List.mem_cons.mp hz with rfl | hz
          · by_cases hab : a ≤ z
            · simpa [hab] using (ih z).1
            · simp only [List.foldl_cons, if_neg hab]
              exact le_trans (le_of_not_le hab) (ih a).1
          · by_cases hab : a ≤ b
            · simpa [hab] using (ih b).2 z hz
            · simpa [hab] using (ih a).2 z hz
  rcases List.mem_cons.mp hx with rfl | hx
  · exact (main ys x).1
  · exact (main ys y).2 x hx

theorem mem_insSorted {x y : ℚ} {l : List ℚ} (h : y ∈ insSorted x l) :
    y = x ∨ y ∈ l := by
  induction l with
  | nil => simpa [insSorted] using h
  | cons z t ih =>
      by_cases hxz : x ≤ z
      · simp only [insSorted, if_pos hxz] at h
        rcases List.mem_cons.mp h with rfl | h
        · exact Or.inl rfl
        · exact Or.inr h
      · simp only [insSorted, if_neg hxz] at h
        rcases List.mem_cons.mp h with rfl | h
        · exact Or.inr (List.mem_cons_self _ _)
        · rcases ih h with h' | h'
          · exact Or.inl h'
          · exact Or.inr (List.mem_cons_of_mem _ h')

theorem mem_sortQ {y : ℚ} {l : List ℚ} (h : y ∈ sortQ l) : y ∈ l := by
  induction l with
  | nil => simp [sortQ] at h
  | cons x t ih =>
      rcases mem_insSorted (h : y ∈ insSorted x (sortQ t)) with rfl | h'
      · exact List.mem_cons_self _ _
      · exact List.mem_cons_of_mem _ (ih h')

theorem length_insSorted (x : ℚ) (l : List ℚ) :
    (insSorted x l).length = l.length + 1 := by
  induction l with
  | nil => simp [insSorted]
  | cons z t ih =>
      by_cases hxz : x ≤ z
      · simp [insSorted, hxz]
      · simp [insSorted, hxz, ih]

theorem length_sortQ (l : List ℚ) : (sortQ l).length = l.length := by
  induction l with
  | nil => simp [sortQ]
  | cons x t ih => simp [sortQ, length_insSorted, ih]

theorem getD_mem_of_lt {l : List ℚ} {i : ℕ} (h : i < l.length) (d : ℚ) :
    l.getD i d ∈ l := by
  induction l generalizing i with
  | nil => simp at h
  | cons x t ih =>
      cases i with
      | zero => simp
      | succ j =>
          simp only [List.getD_cons_succ]
          exact List.mem_cons_of_mem _ (ih (by simpa using h) )

theorem listMedianQ_bounds {l : List ℚ} (h : l ≠ []) :
    listMinQ l ≤ listMedianQ l ∧ listMedianQ l ≤ listMaxQ l := by
  have hn : 0 < l.length := List.length_pos.mpr h
  simp only [listMedianQ]
  by_cases hodd : l.length % 2 = 1
  · rw [if_pos hodd]
    have hlt : l.length / 2 < (sortQ l).length := by
      rw [length_sortQ]; omega
    have hmem := mem_sortQ (getD_mem_of_lt hlt 0)
    exact ⟨listMinQ_le hmem, le_listMaxQ hmem⟩
  · rw [if_neg hodd]
    have hlt1 : l.length / 2 - 1 < (sortQ l).length := by
      rw [length_sortQ]; omega
    have hlt2 : l.length / 2 < (sortQ l).length := by
      rw [length_sortQ]; omega
    have ha := mem_sortQ (getD_mem_of_lt hlt1 0)
    have hb := mem_sortQ (getD_mem_of_lt hlt2 0)
    have ha1 := listMinQ_le ha
    have ha2 := le_listMaxQ ha
    have hb1 := listMinQ_le hb
    have hb2 := le_listMaxQ hb
    constructor
    · linarith
    · linarith

/-- C8: on a non-empty list of records each carrying a numeric price,
`create_summary_report` reports `total_products` equal to the record
count and a price analysis whose median lies between its min and max. -/
theorem create_summary_report_spec (data : List Record)
    (hne : data ≠ [])
    (hp : ∀ r ∈ data, ∃ q, r.lookup "price" = some (Value.vNum q)) :
    (create_summary_report data).total_products = data.length ∧
    ∃ pa, (create_summary_report data).price_analysis = some pa ∧
      pa.min_price ≤ pa.median_price ∧ pa.median_price ≤ pa.max_price := by
  obtain ⟨r₀, rest, rfl⟩ : ∃ r₀ rest, data = r₀ :: rest := by
    cases data with
    | nil => exact absurd rfl hne
    | cons r₀ rest => exact ⟨r₀, rest, rfl⟩
  obtain ⟨q₀, hq₀⟩ := hp r₀ (List.mem_cons_self _ _)
  have hany : (r₀ :: rest).any (fun r => (r.lookup "price").isSome) = true := by
    simp only [List.any_cons, Bool.or_eq_true]
    exact Or.inl (by rw [hq₀]; rfl)
  have hpr : pricesOf (r₀ :: rest) ≠ [] := by
    have hmem : q₀ ∈ pricesOf (r₀ :: rest) := by
      apply List.mem_filterMap.mpr
      exact ⟨r₀, List.mem_cons_self _ _, by rw [hq₀]⟩
    intro hnil
    rw [hnil] at hmem
    simp at hmem
  constructor
  · rfl
  · refine ⟨{ min_price := listMinQ (pricesOf (r₀ :: rest))
              max_price := listMaxQ (pricesOf (r₀ :: rest))
              avg_price :=
                (pricesOf (r₀ :: rest)).sum / (pricesOf (r₀ :: rest)).length
              median_price := listMedianQ (pricesOf (r₀ :: rest)) }, ?_, ?_⟩
    · simp [create_summary_report, hany]
    · exact listMedianQ_bounds hpr

/-- Witness for C8 at a concrete two-record dataset. -/
theorem create_summary_report_spec_witness :
    (create_summary_report
        [[("price", Value.vNum 3)], [("price", Value.vNum 1)]]).total_products = 2 ∧
    ∃ pa, (create_summary_report
        [[("price", Value.vNum 3)], [("price", Value.vNum 1)]]).price_analysis =
          some pa ∧
      pa.min_price ≤ pa.median_price ∧ pa.median_price ≤ pa.max_price := by
  have h := create_summary_report_spec
    [[("price", Value.vNum 3)], [("price", Value.vNum 1)]]
    (by decide)
    (by
      intro r hr
      simp only [List.mem_cons, List.not_mem_nil, or_false] at hr
      rcases hr with rfl | rfl
      · exact ⟨3, rfl⟩
      · exact ⟨1, rfl⟩)
  exact h

/-! ### Supplier strategies (`supplier_*_scraper.py`: `extract_product_data`)

Page reads are modelled by the text each region yields: `none` means the
element was not found (or the wait timed out), `some t` a found element
whose text is `t`; `find_elements` results are modelled by the list of
matched texts.  The selenium faults that the source's try/except guards
are outside this pure model.  Each stage function is one statement block
of the source. -/

/-- The value stored by `product_data['price'] = extract_price(...)`. -/
def optPrice : Option ℚ → Value
  | some q => Value.vNum q
  | none => Value.vNone

structure S1Page where
  priceDisplay : Option String
  productDetails : Option String
  specifications : Option String

def s1Stage1 (pg : S1Page) : Record :=
  match pg.priceDisplay with
  | some t =>
      if t ≠ "" then setField [] "price" (optPrice (extract_price t)) else []
  | none => []

def s1Stage2 (pg : S1Page) (pd : Record) : Record :=
  match pg.productDetails with
  | some t =>
      if t ≠ "" then
        updateRecord (setField pd "details" (Value.vStr (clean_text t)))
          (extract_dimensions t)
      else pd
  | none => pd

def s1Stage3 (pg : S1Page) (pd : Record) : Record :=
  match pg.specifications with
  | some t =>
      if t ≠ "" then
        setField pd "specifications" (Value.vStr (clean_text t))
      else pd
  | none => pd

/-- `Supplier1Scraper.extract_product_data`. -/
def s1_extract_product_data (pg : S1Page) : Option Record :=
  let pd := s1Stage3 pg (s1Stage2 pg (s1Stage1 pg))
  if pyTruthyOpt (pd.lookup "price") then some pd else none

structure S2Page where
  priceContainer : Option String
  productSummary : Option String
  featureList : Option String
  leadTimeTexts : List String

def s2Stage1 (pg : S2Page) : Record :=
  match pg.priceContainer with
  | some t => setField [] "price" (optPrice (extract_price t))
  | none => []

def s2Stage2 (pg : S2Page) (pd : Record) : Record :=
  match pg.productSummary with
  | some t =>
      if t ≠ "" then
        updateRecord (setField pd "summary" (Value.vStr (clean_text t)))
          (extract_dimensions t)
      else pd
  | none => pd

def s2Stage3 (pg : S2Page) (pd : Record) : Record :=
  match pg.featureList with
  | some t =>
      if t ≠ "" then setField pd "features" (Value.vStr (clean_text t)) else pd
  | none => pd

def s2Stage4 (pg : S2Page) (pd : Record) : Record :=
  match pg.leadTimeTexts with
  | e :: _ => setField pd "delivery_info" (Value.vStr e)
  | [] => pd

/-- `Supplier2Scraper.extract_product_data`. -/
def s2_extract_product_data (pg : S2Page) : Option Record :=
  let pd := s2Stage4 pg (s2Stage3 pg (s2Stage2 pg (s2Stage1 pg)))
  if pyTruthyOpt (pd.lookup "price") then some pd else none

structure S3Page where
  totalPrice : Option String
  priceBreakdown : Option String
  productSpecs : Option String
  warrantyInfo : Option String
  installationTexts : List String

def s3Stage1 (pg : S3Page) : Record :=
  match pg.totalPrice with
  | some t => setField [] "price" (optPrice (extract_price t))
  | none => []

def s3Stage2 (pg : S3Page) (pd : Record) : Record :=
  match pg.priceBreakdown with
  | some t =>
      let pd := setField pd "price_breakdown" (Value.vStr (clean_text t))
      let base_price : Option ℚ :=
        if t.toList.contains '\n' then
          extract_price (String.mk (t.toList.takeWhile (fun c => c ≠ '\n')))
        else none
      match base_price with
      | some q => if q ≠ 0 then setField pd "base_price" (Value.vNum q) else pd
      | none => pd
  | none => pd

def s3Stage3 (pg : S3Page) (pd : Record) : Record :=
  match pg.productSpecs with
  | some t =>
      if t ≠ "" then
        updateRecord (setField pd "specifications" (Value.vStr (clean_text t)))
          (extract_dimensions t)
      else pd
  | none => pd

def s3Stage4 (pg : S3Page) (pd : Record) : Record :=
  match pg.warrantyInfo with
  | some t =>
      if t ≠ "" then setField pd "warranty" (Value.vStr (clean_text t)) else pd
  | none => pd

def s3Stage5 (pg : S3Page) (pd : Record) : Record :=
  match pg.installationTexts with
  | e :: _ => setField pd "installation_info" (Value.vStr e)
  | [] => pd

/-- `Supplier3Scraper.extract_product_data`. -/
def s3_extract_product_data (pg : S3Page) : Option Record :=
  let pd := s3Stage5 pg (s3Stage4 pg (s3Stage3 pg (s3Stage2 pg (s3Stage1 pg))))
  if pyTruthyOpt (pd.lookup "price") then some pd else none

theorem tryDimPatterns_shape (ps : List (List RItem × List RItem × List RItem ×
      List RItem × List RItem)) (s : List Char) (a b : Value) :
    ∃ a' b', tryDimPatterns ps s [("width", a), ("height", b)] =
      [("width", a'), ("height", b')] := by
  induction ps generalizing a b with
  | nil => exact ⟨a, b, rfl⟩
  | cons p ps ih =>
      obtain ⟨pre, g1, mid, g2, post⟩ := p
      rcases hs : searchTwoGrp pre g1 mid g2 post s with _ | ⟨c1, c2⟩ <;>
        simp only [tryDimPatterns, hs, String.toList]
      · exact ih a b
      · rcases h1 : pyFloatChars c1.data with _ | w <;> simp only [h1]
        · exact ih a b
        · rcases h2 : pyFloatChars c2.data with _ | hh <;> simp only [h2]
          · simpa [setField] using ih (Value.vNum w) b
          · exact ⟨Value.vNum w, Value.vNum hh, by simp [setField]⟩

theorem extract_dimensions_shape (t : String) :
    ∃ a b, extract_dimensions t = [("width", a), ("height", b)] :=
  tryDimPatterns_shape dimPatterns t.toList Value.vNone Value.vNone

theorem lookup_price_update_dims (pd : Record) (t : String) :
    (updateRecord pd (extract_dimensions t)).lookup "price" =
      pd.lookup "price" := by
  obtain ⟨a, b, hd⟩ := extract_dimensions_shape t
  rw [hd]
  show (setField (setField pd "width" a) "height" b).lookup "price" = _
  rw [lookup_setField_other _ _ _ _ (by decide),
    lookup_setField_other _ _ _ _ (by decide)]

theorem pyTruthyOpt_zero_none (pd : Record)
    (h : pd.lookup "price" = some (Value.vNum 0)) :
    (if pyTruthyOpt (pd.lookup "price") then some pd else none) = none := by
  rw [h]
  simp [pyTruthyOpt, pyTruthy]

theorem s1Stage2_price (pg : S1Page) (pd : Record) :
    (s1Stage2 pg pd).lookup "price" = pd.lookup "price" := by
  obtain ⟨p1, p2, p3⟩ := pg
  cases p2 with
  | none => rfl
  | some t =>
      show ((if t ≠ "" then
          updateRecord (setField pd "details" (Value.vStr (clean_text t)))
            (extract_dimensions t)
        else pd) : Record).lookup "price" = pd.lookup "price"
      by_cases ht : t ≠ ""
      · rw [if_pos ht, lookup_price_update_dims,
          lookup_setField_other _ _ _ _ (by decide)]
      · rw [if_neg ht]

theorem s1Stage3_price (pg : S1Page) (pd : Record) :
    (s1Stage3 pg pd).lookup "price" = pd.lookup "price" := by
  obtain ⟨p1, p2, p3⟩ := pg
  cases p3 with
  | none => rfl
  | some t =>
      show ((if t ≠ "" then
          setField pd "specifications" (Value.vStr (clean_text t))
        else pd) : Record).lookup "price" = pd.lookup "price"
      by_cases ht : t ≠ ""
      · rw [if_pos ht, lookup_setField_other _ _ _ _ (by decide)]
      · rw [if_neg ht]

theorem s2Stage2_price (pg : S2Page) (pd : Record) :
    (s2Stage2 pg pd).lookup "price" = pd.lookup "price" := by
  obtain ⟨p1, p2, p3, p4⟩ := pg
  cases p2 with
  | none => rfl
  | some t =>
      show ((if t ≠ "" then
          updateRecord (setField pd "summary" (Value.vStr (clean_text t)))
            (extract_dimensions t)
        else pd) : Record).lookup "price" = pd.lookup "price"
      by_cases ht : t ≠ ""
      · rw [if_pos ht, lookup_price_update_dims,
          lookup_setField_other _ _ _ _ (by decide)]
      · rw [if_neg ht]

theorem s2Stage3_price (pg : S2Page) (pd : Record) :
    (s2Stage3 pg pd).lookup "price" = pd.lookup "price" := by
  obtain ⟨p1, p2, p3, p4⟩ := pg
  cases p3 with
  | none => rfl
  | some t =>
      show ((if t ≠ "" then
          setField pd "features" (Value.vStr (clean_text t))
        else pd) : Record).lookup "price" = pd.lookup "price"
      by_cases ht : t ≠ ""
      · rw [if_pos ht, lookup_setField_other _ _ _ _ (by decide)]
      · rw [if_neg ht]

theorem s2Stage4_price (pg : S2Page) (pd : Record) :
    (s2Stage4 pg pd).lookup "price" = pd.lookup "price" := by
  obtain ⟨p1, p2, p3, p4⟩ := pg
  cases p4 with
  | nil => rfl
  | cons e rest =>
      show (setField pd "delivery_info" (Value.vStr e)).lookup "price" =
        pd.lookup "price"
      rw [lookup_setField_other _ _ _ _ (by decide)]

theorem s3Stage2_price (pg : S3Page) (pd : Record) :
    (s3Stage2 pg pd).lookup "price" = pd.lookup "price" := by
  obtain ⟨p1, p2, p3, p4, p5⟩ := pg
  cases p2 with
  | none => rfl
  | some t =>
      simp only [s3Stage2]
      rcases hb : (if t.toList.contains '\n' then
          extract_price (String.mk (t.toList.takeWhile (fun c => c ≠ '\n')))
        else none) with _ | q <;> simp only [hb]
      · rw [lookup_setField_other _ _ _ _ (by decide)]
      · by_cases hq : q ≠ 0
        · rw [if_pos hq, lookup_setField_other _ _ _ _ (by decide),
            lookup_setField_other _ _ _ _ (by decide)]
        · rw [if_neg hq, lookup_setField_other _ _ _ _ (by decide)]

theorem s3Stage3_price (pg : S3Page) (pd : Record) :
    (s3Stage3 pg pd).lookup "price" = pd.lookup "price" := by
  obtain ⟨p1, p2, p3, p4, p5⟩ := pg
  cases p3 with
  | none => rfl
  | some t =>
      show ((if t ≠ "" then
          updateRecord (setField pd "specifications" (Value.vStr (clean_text t)))
            (extract_dimensions t)
        else pd) : Record).lookup "price" = pd.lookup "price"
      by_cases ht : t ≠ ""
      · rw [if_pos ht, lookup_price_update_dims,
          lookup_setField_other _ _ _ _ (by decide)]
      · rw [if_neg ht]

theorem s3Stage4_price (pg : S3Page) (pd : Record) :
    (s3Stage4 pg pd).lookup "price" = pd.lookup "price" := by
  obtain ⟨p1, p2, p3, p4, p5⟩ := pg
  cases p4 with
  | none => rfl
  | some t =>
      show ((if t ≠ "" then
          setField pd "warranty" (Value.vStr (clean_text t))
        else pd) : Record).lookup "price" = pd.lookup "price"
      by_cases ht : t ≠ ""
      · rw [if_pos ht, lookup_setField_other _ _ _ _ (by decide)]
      · rw [if_neg ht]

theorem s3Stage5_price (pg : S3Page) (pd : Record) :
    (s3Stage5 pg pd).lookup "price" = pd.lookup "price" := by
  obtain ⟨p1, p2, p3, p4, p5⟩ := pg
  cases p5 with
  | nil => rfl
  | cons e rest =>
      show (setField pd "installation_info" (Value.vStr e)).lookup "price" =
        pd.lookup "price"
      rw [lookup_setField_other _ _ _ _ (by decide)]

/-- C9: when the price region's text parses to the numeric value 0.0
(e.g. `"$0.00"`), `extract_product_data` of every supplier strategy
returns none — the `if not product_data.get('price')` check rejects the
falsy parsed value 0.0 exactly like an absent price. -/
theorem extract_zero_price_rejected :
    (∀ (pg : S1Page) (t : String), pg.priceDisplay = some t →
      extract_price t = some 0 → s1_extract_product_data pg = none) ∧
    (∀ (pg : S2Page) (t : String), pg.priceContainer = some t →
      extract_price t = some 0 → s2_extract_product_data pg = none) ∧
    (∀ (pg : S3Page) (t : String), pg.totalPrice = some t →
      extract_price t = some 0 → s3_extract_product_data pg = none) := by
  refine ⟨?_, ?_, ?_⟩
  · intro pg t hpt hp
    have ht : t ≠ "" := by
      intro h; rw [h] at hp; exact absurd hp (by decide)
    have h1 : (s1Stage1 pg).lookup "price" = some (Value.vNum 0) := by
      unfold s1Stage1
      rw [hpt]
      dsimp only
      rw [if_pos ht, hp]
      rfl
    unfold s1_extract_product_data
    apply pyTruthyOpt_zero_none
    rw [s1Stage3_price, s1Stage2_price, h1]
  · intro pg t hpt hp
    have h1 : (s2Stage1 pg).lookup "price" = some (Value.vNum 0) := by
      unfold s2Stage1
      rw [hpt]
      dsimp only
      rw [hp]
      rfl
    unfold s2_extract_product_data
    apply pyTruthyOpt_zero_none
    rw [s2Stage4_price, s2Stage3_price, s2Stage2_price, h1]
  · intro pg t hpt hp
    have h1 : (s3Stage1 pg).lookup "price" = some (Value.vNum 0) := by
      unfold s3Stage1
      rw [hpt]
      dsimp only
      rw [hp]
      rfl
    unfold s3_extract_product_data
    apply pyTruthyOpt_zero_none
    rw [s3Stage5_price, s3Stage4_price, s3Stage3_price, s3Stage2_price, h1]

/-- Witness for C9: a `$0.00` price region makes all three strategies
fail, even with other regions populated. -/
theorem extract_zero_price_rejected_witness :
    s1_extract_product_data
      ⟨some "$0.00", some "30\" x 40\" vinyl", none⟩ = none ∧
    s2_extract_product_data ⟨some "$0.00", none, some "low-e", []⟩ = none ∧
    s3_extract_product_data ⟨some "$0.00", none, none, some "10y", []⟩ = none := by
  refine ⟨?_, ?_, ?_⟩
  · exact extract_zero_price_rejected.1 _ "$0.00" rfl (by decide)
  · exact extract_zero_price_rejected.2.1 _ "$0.00" rfl (by decide)
  · exact extract_zero_price_rejected.2.2 _ "$0.00" rfl (by decide)

/-! ### In-place mutation of `combine_datasets` (heap model)

Python records are heap objects; `combine_datasets` writes `supplier` and
`scraped_at` into each input record object and appends the very same
objects to its result.  The heap maps an object id to the record it
holds; datasets are lists of object ids. -/

abbrev Heap := Nat → Record

def updateH (h : Heap) (r : Nat) (v : Record) : Heap :=
  fun x => if x = r then v else h x

/-- Stamp the records of one dataset in place (`item['supplier'] = ...;
item['scraped_at'] = ...` for each item). -/
def stampList (name : String) (ts : Nat → String) : Heap → Nat → List Nat → Heap
  | h, _, [] => h
  | h, k, r :: rs =>
      stampList name ts
        (updateH h r
          (setField (setField (h r) "supplier" (Value.vStr name))
            "scraped_at" (Value.vStr (ts k))))
        (k + 1) rs

/-- `DataHandler.combine_datasets` on the heap: the updated heap and the
ids of the records placed in the combined list. -/
def combineH (supplier_names : List String) (ts : Nat → String) :
    Heap → Nat → Nat → List (List Nat) → Heap × List Nat
  | h, _, _, [] => (h, [])
  | h, i, k, ds :: rest =>
      let name := supplier_names.getD i ("Supplier_" ++ toString (i + 1))
      let h' := stampList name ts h k ds
      let hf := combineH supplier_names ts h' (i + 1) (k + ds.length) rest
      (hf.1, ds ++ hf.2)

def combine_datasets_heap (h : Heap) (datasets : List (List Nat))
    (supplier_names : List String) (ts : Nat → String) : Heap × List Nat :=
  combineH supplier_names ts h 0 0 datasets

/-- A record that has had `supplier` and `scraped_at` written into it. -/
def hasStamp (rec : Record) : Prop :=
  (rec.lookup "supplier").isSome = true ∧ (rec.lookup "scraped_at").isSome = true

theorem stampList_untouched (name : String) (ts : Nat → String)
    (rs : List Nat) : ∀ (h : Heap) (k r : Nat), r ∉ rs →
      stampList name ts h k rs r = h r := by
  induction rs with
  | nil => intro h k r _; rfl
  | cons x rest ih =>
      intro h k r hr
      have hrx : r ≠ x := fun hh => hr (hh ▸ List.mem_cons_self _ _)
      have hrrest : r ∉ rest := fun hh => hr (List.mem_cons_of_mem _ hh)
      show stampList name ts (updateH h x _) (k + 1) rest r = h r
      rw [ih _ _ _ hrrest]
      simp [updateH, hrx]

theorem updateH_self (h : Heap) (r : Nat) (v : Record) :
    updateH h r v r = v := by
  simp [updateH]

theorem updateH_other (h : Heap) (r x : Nat) (v : Record) (hx : x ≠ r) :
    updateH h r v x = h x := by
  simp [updateH, hx]

theorem hasStamp_stamp (rec : Record) (name tsv : String) :
    hasStamp (setField (setField rec "supplier" (Value.vStr name))
      "scraped_at" (Value.vStr tsv)) := by
  constructor
  · rw [lookup_setField_other _ _ _ _ (by decide), lookup_setField_self]
    rfl
  · rw [lookup_setField_self]; rfl

theorem stampList_preserves (name : String) (ts : Nat → String)
    (rs : List Nat) : ∀ (h : Heap) (k r : Nat), hasStamp (h r) →
      hasStamp (stampList name ts h k rs r) := by
  induction rs with
  | nil => intro h k r hr; exact hr
  | cons x rest ih =>
      intro h k r hr
      apply ih
      by_cases hrx : r = x
      · subst hrx
        rw [updateH_self]
        exact hasStamp_stamp _ _ _
      · rw [updateH_other _ _ _ _ hrx]
        exact hr

theorem stampList_stamped (name : String) (ts : Nat → String)
    (rs : List Nat) : ∀ (h : Heap) (k r : Nat), r ∈ rs →
      hasStamp (stampList name ts h k rs r) := by
  induction rs with
  | nil => intro h k r hr; simp at hr
  | cons x rest ih =>
      intro h k r hr
      by_cases hrrest : r ∈ rest
      · exact ih _ _ _ hrrest
      · have hrx : r = x := by
          rcases List.mem_cons.mp hr with h' | h'
          · exact h'
          · exact absurd h' hrrest
        subst hrx
        show hasStamp (stampList name ts (updateH h r _) (k + 1) rest r)
        rw [stampList_untouched _ _ _ _ _ _ hrrest, updateH_self]
        exact hasStamp_stamp _ _ _

theorem combineH_preserves (supplier_names : List String) (ts : Nat → String)
    (datasets : List (List Nat)) : ∀ (h : Heap) (i k r : Nat),
      hasStamp (h r) →
      hasStamp ((combineH supplier_names ts h i k datasets).1 r) := by
  induction datasets with
  | nil => intro h i k r hr; exact hr
  | cons ds rest ih =>
      intro h i k r hr
      exact ih _ _ _ _ (stampList_preserves _ _ _ _ _ _ hr)

/-- C10: `combine_datasets` mutates its inputs in place: the returned
list holds exactly the input record objects themselves (the concatenation
of the input id lists, no copies), and after the call every input record
object has had `supplier` and `scraped_at` fields written into it. -/
theorem combine_datasets_mutates (h : Heap) (datasets : List (List Nat))
    (supplier_names : List String) (ts : Nat → String) :
    (combine_datasets_heap h datasets supplier_names ts).2 =
      datasets.flatten ∧
    ∀ r ∈ datasets.flatten,
      hasStamp ((combine_datasets_heap h datasets supplier_names ts).1 r) := by
  have main : ∀ (dss : List (List Nat)) (h : Heap) (i k : Nat),
      (combineH supplier_names ts h i k dss).2 = dss.flatten ∧
      ∀ r ∈ dss.flatten, hasStamp ((combineH supplier_names ts h i k dss).1 r) := by
    intro dss
    induction dss with
    | nil => intro h i k; exact ⟨rfl, by simp⟩
    | cons ds rest ih =>
        intro h i k
        constructor
        · show ds ++ (combineH supplier_names ts _ (i + 1) (k + ds.length) rest).2 =
            (ds :: rest).flatten
          rw [(ih _ (i + 1) (k + ds.length)).1]
          simp
        · intro r hr
          rw [List.flatten_cons] at hr
          rcases List.mem_append.mp hr with hds | hrest
          · exact combineH_preserves supplier_names ts rest _ (i + 1)
              (k + ds.length) r (stampList_stamped _ _ _ _ _ _ hds)
          · exact (ih _ (i + 1) (k + ds.length)).2 r hrest
  exact main datasets h 0 0

/-- Witness for C10 at a concrete heap and datasets. -/
theorem combine_datasets_mutates_witness :
    (combine_datasets_heap (fun _ => []) [[0], [1]] ["A"]
      (fun k => toString k)).2 = [0, 1] ∧
    hasStamp ((combine_datasets_heap (fun _ => []) [[0], [1]] ["A"]
      (fun k => toString k)).1 0) := by
  have h := combine_datasets_mutates (fun _ => []) [[0], [1]] ["A"]
    (fun k => toString k)
  exact ⟨h.1, h.2 0 (by decide)⟩

/-! ### The scrape orchestrator (`base_scraper.py`)

Browser-dependent steps are modelled by outcome oracles:
`StepResult.fault` is a raised exception, `StepResult.ok` a normal
return value. -/

inductive StepResult (α : Type) where
  | ok (a : α)
  | fault
deriving DecidableEq

/-- Outcomes of `configure_product` / `extract_product_data` at the n-th
invocation of the pipeline body. -/
structure PipelineEnv where
  configure : Nat → StepResult Bool
  extract : Nat → StepResult (Option Record)

/-- One run of the try-block of `scrape_single_product`: configure →
delay → extract → merge the configuration and supplier name into the
record → normalize → validate. -/
def pipelineAttempt (supplier : String) (env : PipelineEnv) (config : Record)
    (n : Nat) : StepResult (Option Record) :=
  match env.configure n with
  | StepResult.fault => StepResult.fault
  | StepResult.ok false => StepResult.ok none
  | StepResult.ok true =>
      match env.extract n with
      | StepResult.fault => StepResult.fault
      | StepResult.ok none => StepResult.ok none
      | StepResult.ok (some pd) =>
          let merged :=
            setField (updateRecord pd config) "supplier" (Value.vStr supplier)
          let nd := normalize_product_data merged
          StepResult.ok (if validate_product_data nd then some nd else none)

/-- The try/except body of `scrape_single_product`: any fault raised by
the pipeline is caught (logged, screenshot taken) and `None` returned, so
the body itself never raises. -/
def scrapeSingleBody (supplier : String) (env : PipelineEnv) (config : Record)
    (n : Nat) : Option Record :=
  match pipelineAttempt supplier env config n with
  | StepResult.fault => none
  | StepResult.ok r => r

/-- `retrying.retry(stop_max_attempt_number=m, wait_fixed=...,
retry_on_exception=...)` around a function whose n-th call yields `f n`:
call until a call returns normally or the attempts are exhausted (then
the exception propagates), reporting the result and the number of calls
made. -/
def retryRunGo (f : Nat → StepResult (Option Record)) :
    Nat → Nat → StepResult (Option Record) × Nat
  | 0, n => (StepResult.fault, n)
  | fuel + 1, n =>
      match f n with
      | StepResult.ok v => (StepResult.ok v, n + 1)
      | StepResult.fault =>
          if fuel = 0 then (StepResult.fault, n + 1)
          else retryRunGo f fuel (n + 1)

def retryRun (maxAttempts : Nat) (f : Nat → StepResult (Option Record)) :
    StepResult (Option Record) × Nat :=
  retryRunGo f maxAttempts 0

/-- `scrape_single_product` = the `@retry_on_failure(max_attempts=3)`
wrapper applied to the body; the `Nat` component counts how many times
the wrapped body (and hence the pipeline) ran. -/
def scrape_single_product (supplier : String) (env : PipelineEnv)
    (config : Record) : StepResult (Option Record) × Nat :=
  retryRun 3 (fun n => StepResult.ok (scrapeSingleBody supplier env config n))

/-- Counterexample to C1 as stated: with a pipeline that raises a fault
on every attempt, the pipeline body runs exactly once — not the three
times a working per-item retry policy would run it — because the body's
blanket except catches the fault before the retry decorator can see it. -/
theorem scrape_single_product_counterexample :
    (scrape_single_product "S"
      { configure := fun _ => StepResult.fault
        extract := fun _ => StepResult.fault } []).2 = 1 ∧
    ¬ (scrape_single_product "S"
      { configure := fun _ => StepResult.fault
        extract := fun _ => StepResult.fault } []).2 = 3 := by
  constructor
  · rfl
  · decide

/-- C1 (amended): `scrape_single_product` makes exactly one pipeline
invocation for every configuration — the blanket except inside the body
swallows every pipeline fault, so the `retry_on_failure(3)` decorator
never observes an exception and never retries — and when the first
attempt's pipeline raises a fault the call returns a normal `None`
(recorded as a failed configuration, not re-raised to the orchestrator
loop). -/
theorem scrape_single_product_spec (supplier : String) (env : PipelineEnv)
    (config : Record) :
    (scrape_single_product supplier env config).2 = 1 ∧
    (pipelineAttempt supplier env config 0 = StepResult.fault →
      scrape_single_product supplier env config = (StepResult.ok none, 1)) := by
  constructor
  · rfl
  · intro hf
    show (StepResult.ok (scrapeSingleBody supplier env config 0), 1) =
      (StepResult.ok none, 1)
    rw [show scrapeSingleBody supplier env config 0 = none from by
      unfold scrapeSingleBody; rw [hf]]

/-- Witness for C1 (amended): a concrete always-faulting environment. -/
theorem scrape_single_product_spec_witness :
    scrape_single_product "S"
      { configure := fun _ => StepResult.fault
        extract := fun _ => StepResult.ok none } [] =
      (StepResult.ok none, 1) :=
  (scrape_single_product_spec "S"
    { configure := fun _ => StepResult.fault
      extract := fun _ => StepResult.ok none } []).2 (by decide)

/-- Per-run outcomes for `scrape_all_products`: the login result and the
pipeline outcomes at each configuration index. -/
structure ScrapeEnv where
  login : StepResult Bool
  configure : Nat → StepResult Bool
  extract : Nat → StepResult (Option Record)

def envAt (env : ScrapeEnv) (i : Nat) : PipelineEnv :=
  { configure := fun _ => env.configure i
    extract := fun _ => env.extract i }

/-- The iteration loop of `scrape_all_products`, accumulating
`scraped_data` and `failed_items`; a fault escaping an iteration aborts
the remaining iterations (the outer except) keeping what was collected. -/
def scrapeLoop (supplier : String) (env : ScrapeEnv) :
    Nat → List Record → List Record → List Record → List Record × List Record
  | _, [], scraped, failed => (scraped, failed)
  | i, config :: rest, scraped, failed =>
      match (scrape_single_product supplier (envAt env i) config).1 with
      | StepResult.ok (some rec) =>
          scrapeLoop supplier env (i + 1) rest (scraped ++ [rec]) failed
      | StepResult.ok none =>
          scrapeLoop supplier env (i + 1) rest scraped (failed ++ [config])
      | StepResult.fault => (scraped, failed)

/-- `scrape_all_products`: login failure (or a raised setup/login fault,
caught by the outer except) yields an empty result; otherwise the loop
runs and the collected successes are returned. -/
def scrape_all_products (supplier : String) (env : ScrapeEnv)
    (configs : List Record) : List Record :=
  match env.login with
  | StepResult.fault => []
  | StepResult.ok false => []
  | StepResult.ok true => (scrapeLoop supplier env 0 configs [] []).1

/-- Shared characterization: `validate_product_data` succeeds exactly on
records with a present non-`None` `product_type` and a present non-`None`
price that coerces to a number. -/
theorem validate_true_iff (product : Record) :
    validate_product_data product = true ↔
      ((∃ v, product.lookup "product_type" = some v ∧ v ≠ Value.vNone) ∧
       (∃ w, product.lookup "price" = some w ∧ w ≠ Value.vNone ∧
         (coerceFloat w).isSome = true)) := by
  cases hpt : product.lookup "product_type" with
  | none => simp [validate_product_data, hpt]
  | some v =>
      cases hpr : product.lookup "price" with
      | none =>
          by_cases hv : v = Value.vNone <;>
            simp [validate_product_data, hpt, hpr, hv]
      | some w =>
          by_cases hv : v = Value.vNone
          · simp [validate_product_data, hpt, hpr, hv]
          · by_cases hw : w = Value.vNone
            · simp [validate_product_data, hpt, hpr, hv, hw]
            · simp [validate_product_data, hpt, hpr, hv, hw]

theorem scrape_single_some_valid (supplier : String) (penv : PipelineEnv)
    (config : Record) (rec : Record)
    (h : (scrape_single_product supplier penv config).1 =
      StepResult.ok (some rec)) :
    validate_product_data rec = true := by
  have hbody : scrapeSingleBody supplier penv config 0 = some rec := by
    have heq : (scrape_single_product supplier penv config).1 =
        StepResult.ok (scrapeSingleBody supplier penv config 0) := rfl
    rw [heq] at h
    exact (StepResult.ok.injEq _ _).mp h
  unfold scrapeSingleBody at hbody
  rcases hc : pipelineAttempt supplier penv config 0 with r | _
  · rw [hc] at hbody
    dsimp only at hbody
    subst hbody
    unfold pipelineAttempt at hc
    rcases h1 : penv.configure 0 with b | _ <;> rw [h1] at hc
    · cases b with
      | false => simp at hc
      | true =>
          dsimp only at hc
          rcases h2 : penv.extract 0 with pd | _ <;> rw [h2] at hc
          · cases pd with
            | none => simp at hc
            | some pd =>
                dsimp only at hc
                simp only [StepResult.ok.injEq] at hc
                by_cases hv : validate_product_data (normalize_product_data
                    (setField (updateRecord pd config) "supplier"
                      (Value.vStr supplier))) = true
                · rw [if_pos hv] at hc
                  simp only [Option.some.injEq] at hc
                  rw [← hc]
                  exact hv
                · rw [if_neg hv] at hc
                  simp at hc
          · simp at hc
    · simp at hc
  · rw [hc] at hbody
    simp at hbody

/-- C3: every record in the success list returned by
`scrape_all_products` passed `validate_product_data`: it has a
non-`None` `product_type` and a non-`None` price coercible to a number;
this holds for every sequence of per-item outcomes. -/
theorem scrape_all_products_valid (supplier : String) (env : ScrapeEnv)
    (configs : List Record) :
    ∀ rec ∈ scrape_all_products supplier env configs,
      (∃ v, rec.lookup "product_type" = some v ∧ v ≠ Value.vNone) ∧
      (∃ w, rec.lookup "price" = some w ∧ w ≠ Value.vNone ∧
        (coerceFloat w).isSome = true) := by
  have loop : ∀ (cs : List Record) (i : Nat) (scraped failed : List Record),
      (∀ rec ∈ scraped, validate_product_data rec = true) →
      ∀ rec ∈ (scrapeLoop supplier env i cs scraped failed).1,
        validate_product_data rec = true := by
    intro cs
    induction cs with
    | nil => intro i scraped failed hs rec hrec; exact hs rec hrec
    | cons config rest ih =>
        intro i scraped failed hs rec hrec
        rcases hr : (scrape_single_product supplier (envAt env i) config).1
          with r | _
        · cases r with
          | some newRec =>
              rw [show scrapeLoop supplier env i (config :: rest) scraped failed =
                  scrapeLoop supplier env (i + 1) rest (scraped ++ [newRec])
                    failed from by
                show (match (scrape_single_product supplier (envAt env i)
                    config).1 with
                  | StepResult.ok (some rec) => scrapeLoop supplier env (i + 1)
                      rest (scraped ++ [rec]) failed
                  | StepResult.ok none => scrapeLoop supplier env (i + 1) rest
                      scraped (failed ++ [config])
                  | StepResult.fault => (scraped, failed)) = _
                rw [hr]] at hrec
              refine ih (i + 1) _ failed ?_ rec hrec
              intro r' hr'
              rcases List.mem_append.mp hr' with h' | h'
              · exact hs r' h'
              · rw [List.mem_singleton.mp h']
                exact scrape_single_some_valid supplier (envAt env i) config
                  newRec hr
          | none =>
              rw [show scrapeLoop supplier env i (config :: rest) scraped failed =
                  scrapeLoop supplier env (i + 1) rest scraped
                    (failed ++ [config]) from by
                show (match (scrape_single_product supplier (envAt env i)
                    config).1 with
                  | StepResult.ok (some rec) => scrapeLoop supplier env (i + 1)
                      rest (scraped ++ [rec]) failed
                  | StepResult.ok none => scrapeLoop supplier env (i + 1) rest
                      scraped (failed ++ [config])
                  | StepResult.fault => (scraped, failed)) = _
                rw [hr]] at hrec
              exact ih (i + 1) scraped _ hs rec hrec
        · rw [show scrapeLoop supplier env i (config :: rest) scraped failed =
              (scraped, failed) from by
            show (match (scrape_single_product supplier (envAt env i)
                config).1 with
              | StepResult.ok (some rec) => scrapeLoop supplier env (i + 1)
                  rest (scraped ++ [rec]) failed
              | StepResult.ok none => scrapeLoop supplier env (i + 1) rest
                  scraped (failed ++ [config])
              | StepResult.fault => (scraped, failed)) = _
            rw [hr]] at hrec
          exact hs rec hrec
  intro rec hrec
  unfold scrape_all_products at hrec
  rcases hl : env.login with b | _
  · rw [hl] at hrec
    cases b with
    | false => simp at hrec
    | true =>
        simp only at hrec
        exact (validate_true_iff rec).mp
          (loop configs 0 [] [] (by simp) rec hrec)
  · rw [hl] at hrec
    simp at hrec

/-- Witness for C3: a successfully scraped configuration appears in the
result list with validated fields. -/
theorem scrape_all_products_valid_witness :
    (∃ v, ([("product_type", Value.vStr "windows"),
        ("price", Value.vNum (Rat.divInt 19999 100))] : Record).lookup
        "product_type" = some v ∧ v ≠ Value.vNone) ∧
    (∃ w, ([("product_type", Value.vStr "windows"),
        ("price", Value.vNum (Rat.divInt 19999 100))] : Record).lookup
        "price" = some w ∧ w ≠ Value.vNone ∧ (coerceFloat w).isSome = true) :=
  scrape_all_products_valid "S"
    { login := StepResult.ok true
      configure := fun _ => StepResult.ok true
      extract := fun _ =>
        StepResult.ok (some [("price", Value.vStr "$199.99")]) }
    [[("product_type", Value.vStr "windows")]]
    [("product_type", Value.vStr "windows"),
     ("price", Value.vNum (Rat.divInt 19999 100))]
    (by decide)

/-! ### Matcher structure lemmas on digit runs

These describe the head (the greedy-first candidate) of the candidate
lists the price/dimension capture groups produce on inputs that start
with a run of digits. -/

theorem digit_ne {c d : Char} (h : c.isDigit = true) (hd : d.isDigit = false) :
    c ≠ d := by
  intro he
  subst he
  rw [h] at hd
  exact Bool.noConfusion hd

theorem digit_not_space {c : Char} (h : c.isDigit = true) :
    isPySpace c = false := by
  cases hs : isPySpace c with
  | false => rfl
  | true =>
      exfalso
      simp only [isPySpace, Bool.or_eq_true, decide_eq_true_eq] at hs
      rcases hs with ((((rfl | rfl) | rfl) | rfl) | rfl) | rfl <;>
        exact absurd h (by decide)

theorem notin_contains {c : Char} {l : List Char} (h : ∀ d ∈ l, c ≠ d) :
    l.contains c = false := by
  induction l with
  | nil => rfl
  | cons d t ih =>
      have hd : (c == d) = false :=
        beq_eq_false_iff_ne.mpr (h d (List.mem_cons_self _ _))
      show List.elem c (d :: t) = false
      simp only [List.elem, hd]
      exact ih (fun e he => h e (List.mem_cons_of_mem _ he))

theorem digit_test_dot {c : Char} (h : c.isDigit = true) :
    (CClass.anyIn ['.']).test c = false := by
  show (['.'].contains c) = false
  exact notin_contains (by
    intro d hd
    rw [List.mem_singleton.mp hd]
    exact digit_ne h (by decide))

theorem digit_test_comma {c : Char} (h : c.isDigit = true) :
    (CClass.anyIn [',']).test c = false := by
  show ([','].contains c) = false
  exact notin_contains (by
    intro d hd
    rw [List.mem_singleton.mp hd]
    exact digit_ne h (by decide))

theorem starSplits_guard (k : CClass) (r : List Char)
    (hr : ∀ c r', r = c :: r' → k.test c = false) :
    starSplits k r = [([], r)] := by
  cases r with
  | nil => rfl
  | cons c r' => simp [starSplits, hr c r' rfl]

theorem starSplits_digits (e : List Char) (r : List Char)
    (he : ∀ c ∈ e, c.isDigit = true)
    (hr : ∀ c r', r = c :: r' → c.isDigit = false) :
    ∃ t, starSplits CClass.digit (e ++ r) = (e, r) :: t := by
  induction e with
  | nil =>
      refine ⟨[], ?_⟩
      rw [List.nil_append]
      exact starSplits_guard _ _ (fun c r' hh => hr c r' hh)
  | cons c e' ih =>
      obtain ⟨t, ht⟩ := ih (fun d hd => he d (List.mem_cons_of_mem _ hd))
      have hc : CClass.digit.test c = true := he c (List.mem_cons_self _ _)
      rw [List.cons_append]
      refine ⟨t.map (fun pr => (c :: pr.1, pr.2)) ++ [([], c :: (e' ++ r))], ?_⟩
      simp [starSplits, hc, ht]

theorem cands_star_only (k : CClass) (s : List Char) :
    simpleCands [RItem.star k] s = starSplits k s := by
  show (starSplits k s).flatMap (fun sp => (simpleCands [] sp.2).map
    (fun pr => (sp.1 ++ pr.1, pr.2))) = starSplits k s
  generalize starSplits k s = S
  induction S with
  | nil => rfl
  | cons sp t ih => simp [List.flatMap_cons, ih, simpleCands]

theorem cands_plus_eq (k : CClass) (rest : List RItem) (c : Char)
    (s : List Char) (hc : k.test c = true) :
    simpleCands (RItem.plus k :: rest) (c :: s) =
      (simpleCands (RItem.star k :: rest) s).map
        (fun pr => (c :: pr.1, pr.2)) := by
  show (if k.test c then (starSplits k s).flatMap
      (fun sp => (simpleCands rest sp.2).map
        (fun pr => (c :: (sp.1 ++ pr.1), pr.2))) else []) = _
  rw [if_pos hc]
  show _ = ((starSplits k s).flatMap (fun sp => (simpleCands rest sp.2).map
    (fun pr => (sp.1 ++ pr.1, pr.2)))).map (fun pr => (c :: pr.1, pr.2))
  rw [List.map_flatMap]
  congr 1
  funext sp
  rw [List.map_map]
  rfl

theorem flatMap_consfst (S : List (List Char × List Char)) (R' : List RItem)
    (c : Char) :
    S.flatMap (fun sp => (simpleCands R' sp.2).map
        (fun pr => ((c :: sp.1) ++ pr.1, pr.2))) =
      (S.flatMap (fun sp => (simpleCands R' sp.2).map
        (fun pr => (sp.1 ++ pr.1, pr.2)))).map (fun pr => (c :: pr.1, pr.2)) := by
  rw [List.map_flatMap]
  congr 1
  funext sp
  rw [List.map_map]
  rfl

/-- The first two greedy candidates of `\d*` on a digit run: consume the
whole run, then all but its last digit. -/
theorem starSplits_digits₂ (e r : List Char) (hne : e ≠ [])
    (he : ∀ c ∈ e, c.isDigit = true)
    (hr : ∀ c r', r = c :: r' → c.isDigit = false) :
    ∃ t, starSplits CClass.digit (e ++ r) =
      (e, r) :: (e.dropLast, e.getLast hne :: r) :: t := by
  induction e with
  | nil => exact absurd rfl hne
  | cons c e' ih =>
      have hc : CClass.digit.test c = true := he c (List.mem_cons_self _ _)
      by_cases he' : e' = []
      · subst he'
        refine ⟨[], ?_⟩
        rw [List.cons_append, List.nil_append]
        have hg := starSplits_guard CClass.digit r
          (fun d r' hh => (hr d r' hh).symm ▸ hr d r' hh)
        simp [starSplits, hc, starSplits_guard CClass.digit r
          (fun d r' hh => hr d r' hh)]
      · obtain ⟨t, ht⟩ := ih he' (fun d hd => he d (List.mem_cons_of_mem _ hd))
        refine ⟨t.map (fun pr => (c :: pr.1, pr.2)) ++ [([], (c :: e') ++ r)], ?_⟩
        rw [List.cons_append]
        obtain ⟨x, xs, rfl⟩ : ∃ x xs, e' = x :: xs := by
          cases e' with
          | nil => exact absurd rfl he'
          | cons x xs => exact ⟨x, xs, rfl⟩
        have hstep : starSplits CClass.digit (c :: (x :: xs ++ r)) =
            (starSplits CClass.digit (x :: xs ++ r)).map
              (fun pr => (c :: pr.1, pr.2)) ++ [([], c :: (x :: xs ++ r))] := by
          simp [starSplits, hc]
        rw [hstep, ht]
        simp [List.dropLast_cons₂, List.getLast_cons]

/-- Head of the candidate list of `\d* R'` on a digit run `e`, given the
behaviour of `R'` after the run: `R'` fails on the bare remainder but
succeeds consuming a single leading digit.  (Greedy `\d*` first eats all
of `e` and fails, then backtracks one digit which the first item of `R'`
consumes.) -/
theorem cands_star_head_gen (R' : List RItem) (r : List Char)
    (hnil : simpleCands R' r = [])
    (hone : ∀ c, c.isDigit = true →
      ∃ t, simpleCands R' (c :: r) = ([c], r) :: t)
    (e : List Char) (hne : e ≠ []) (he : ∀ c ∈ e, c.isDigit = true)
    (hr : ∀ c r', r = c :: r' → c.isDigit = false) :
    ∃ t, simpleCands (RItem.star CClass.digit :: R') (e ++ r) =
      (e, r) :: t := by
  obtain ⟨t, ht⟩ := starSplits_digits₂ e r hne he hr
  have hlast : (e.getLast hne).isDigit = true := he _ (List.getLast_mem hne)
  obtain ⟨t₁, ht₁⟩ := hone _ hlast
  show ∃ t', (starSplits CClass.digit (e ++ r)).flatMap
      (fun sp => (simpleCands R' sp.2).map
        (fun pr => (sp.1 ++ pr.1, pr.2))) = (e, r) :: t'
  rw [ht, List.flatMap_cons, List.flatMap_cons, hnil, ht₁]
  refine ⟨t₁.map (fun pr => (e.dropLast ++ pr.1, pr.2)) ++
    t.flatMap (fun sp => (simpleCands R' sp.2).map
      (fun pr => (sp.1 ++ pr.1, pr.2))), ?_⟩
  simp only [List.map_nil, List.nil_append, List.map_cons]
  rw [List.dropLast_append_getLast hne]
  rfl

/-- `\.?\d+` fails on a remainder that starts with neither a digit nor a
dot. -/
theorem cands_optdot_plus_nil (r : List Char)
    (hr : ∀ c r', r = c :: r' → c.isDigit = false ∧ c ≠ '.') :
    simpleCands [RItem.opt (CClass.anyIn ['.']), RItem.plus CClass.digit] r =
      [] := by
  cases r with
  | nil => rfl
  | cons c r' =>
      obtain ⟨h1, h2⟩ := hr c r' rfl
      have hdot : (CClass.anyIn ['.']).test c = false := by
        show (['.'].contains c) = false
        exact notin_contains (fun d hd => by
          rw [List.mem_singleton.mp hd]; exact h2)
      have hdig : CClass.digit.test c = false := h1
      simp [simpleCands, hdot, hdig]

/-- Head of the candidates of `\.?\d+` on a digit run followed by a
guarded remainder. -/
theorem cands_optdot_plus (e r : List Char) (hne : e ≠ [])
    (he : ∀ c ∈ e, c.isDigit = true)
    (hr : ∀ c r', r = c :: r' → c.isDigit = false ∧ c ≠ '.') :
    ∃ t, simpleCands [RItem.opt (CClass.anyIn ['.']), RItem.plus CClass.digit]
      (e ++ r) = (e, r) :: t := by
  obtain ⟨c, e', rfl⟩ : ∃ c e', e = c :: e' := by
    cases e with
    | nil => exact absurd rfl hne
    | cons c e' => exact ⟨c, e', rfl⟩
  have hc : c.isDigit = true := he c (List.mem_cons_self _ _)
  have hdot : (CClass.anyIn ['.']).test c = false := digit_test_dot hc
  obtain ⟨t, ht⟩ := starSplits_digits e' r
    (fun d hd => he d (List.mem_cons_of_mem _ hd))
    (fun d r' hh => (hr d r' hh).1)
  rw [List.cons_append]
  have hskip : simpleCands
      [RItem.opt (CClass.anyIn ['.']), RItem.plus CClass.digit]
      (c :: (e' ++ r)) =
      simpleCands [RItem.plus CClass.digit] (c :: (e' ++ r)) := by
    simp [simpleCands, hdot]
  rw [hskip, cands_plus_eq _ _ _ _ (show CClass.digit.test c = true from hc),
    cands_star_only, ht]
  exact ⟨t.map (fun pr => (c :: pr.1, pr.2)), by rw [List.map_cons]⟩

/-- `\d*\.?\d+` fails on a guarded remainder. -/
theorem cands_sdp_nil (r : List Char)
    (hr : ∀ c r', r = c :: r' → c.isDigit = false ∧ c ≠ '.') :
    simpleCands [RItem.star CClass.digit, RItem.opt (CClass.anyIn ['.']),
      RItem.plus CClass.digit] r = [] := by
  show (starSplits CClass.digit r).flatMap _ = []
  rw [starSplits_guard CClass.digit r (fun c r' hh => (hr c r' hh).1),
    List.flatMap_cons, cands_optdot_plus_nil r hr]
  rfl

/-- Head of the candidates of `\d*\.?\d+` on a digit run. -/
theorem cands_sdp_head (e r : List Char) (hne : e ≠ [])
    (he : ∀ c ∈ e, c.isDigit = true)
    (hr : ∀ c r', r = c :: r' → c.isDigit = false ∧ c ≠ '.') :
    ∃ t, simpleCands [RItem.star CClass.digit, RItem.opt (CClass.anyIn ['.']),
      RItem.plus CClass.digit] (e ++ r) = (e, r) :: t :=
  cands_star_head_gen _ r (cands_optdot_plus_nil r hr)
    (fun c hc => cands_optdot_plus [c] r (by simp) (by simpa using hc) hr)
    e hne he (fun c r' hh => (hr c r' hh).1)

/-- `,?\d*\.?\d+` fails on a guarded remainder. -/
theorem cands_R2_nil (r : List Char)
    (hr : ∀ c r', r = c :: r' →
      c.isDigit = false ∧ c ≠ '.' ∧ c ≠ ',') :
    simpleCands [RItem.opt (CClass.anyIn [',']), RItem.star CClass.digit,
      RItem.opt (CClass.anyIn ['.']), RItem.plus CClass.digit] r = [] := by
  have hsub : ∀ c r', r = c :: r' → c.isDigit = false ∧ c ≠ '.' :=
    fun c r' hh => ⟨(hr c r' hh).1, (hr c r' hh).2.1⟩
  cases r with
  | nil => rfl
  | cons c r' =>
      obtain ⟨h1, h2, h3⟩ := hr c r' rfl
      have hcomma : (CClass.anyIn [',']).test c = false := by
        show ([','].contains c) = false
        exact notin_contains (fun d hd => by
          rw [List.mem_singleton.mp hd]; exact h3)
      have hskip : simpleCands [RItem.opt (CClass.anyIn [',']),
          RItem.star CClass.digit, RItem.opt (CClass.anyIn ['.']),
          RItem.plus CClass.digit] (c :: r') =
          simpleCands [RItem.star CClass.digit, RItem.opt (CClass.anyIn ['.']),
            RItem.plus CClass.digit] (c :: r') := by
        simp [simpleCands, hcomma]
      rw [hskip]
      exact cands_sdp_nil _ hsub

/-- Head of the candidates of `,?\d*\.?\d+` on a single leading digit. -/
theorem cands_R2_one (r : List Char) (c : Char) (hc : c.isDigit = true)
    (hr : ∀ c r', r = c :: r' →
      c.isDigit = false ∧ c ≠ '.' ∧ c ≠ ',') :
    ∃ t, simpleCands [RItem.opt (CClass.anyIn [',']), RItem.star CClass.digit,
      RItem.opt (CClass.anyIn ['.']), RItem.plus CClass.digit] (c :: r) =
      ([c], r) :: t := by
  have hsub : ∀ c r', r = c :: r' → c.isDigit = false ∧ c ≠ '.' :=
    fun c r' hh => ⟨(hr c r' hh).1, (hr c r' hh).2.1⟩
  have hcomma : (CClass.anyIn [',']).test c = false := digit_test_comma hc
  have hskip : simpleCands [RItem.opt (CClass.anyIn [',']),
      RItem.star CClass.digit, RItem.opt (CClass.anyIn ['.']),
      RItem.plus CClass.digit] (c :: r) =
      simpleCands [RItem.star CClass.digit, RItem.opt (CClass.anyIn ['.']),
        RItem.plus CClass.digit] (c :: r) := by
    simp [simpleCands, hcomma]
  rw [hskip]
  exact cands_sdp_head [c] r (by simp) (by simpa using hc) hsub

/-- Head of the candidates of the price group `(\d+,?\d*\.?\d+)` on a
digit run of length ≥ 2 followed by a guarded remainder: the whole run,
leaving the remainder. -/
theorem cands_priceGrp (d r : List Char) (h2 : 2 ≤ d.length)
    (hd : ∀ c ∈ d, c.isDigit = true)
    (hr : ∀ c r', r = c :: r' →
      c.isDigit = false ∧ c ≠ '.' ∧ c ≠ ',') :
    ∃ t, simpleCands priceGrp (d ++ r) = (d, r) :: t := by
  obtain ⟨c, d₁, rfl⟩ : ∃ c d₁, d = c :: d₁ := by
    cases d with
    | nil => simp at h2
    | cons c d₁ => exact ⟨c, d₁, rfl⟩
  have hd₁ : d₁ ≠ [] := by
    intro hh
    rw [hh] at h2
    simp at h2
  have hc : CClass.digit.test c = true := hd c (List.mem_cons_self _ _)
  obtain ⟨t, ht⟩ := cands_star_head_gen
    [RItem.opt (CClass.anyIn [',']), RItem.star CClass.digit,
     RItem.opt (CClass.anyIn ['.']), RItem.plus CClass.digit] r
    (cands_R2_nil r hr)
    (fun c' hc' => cands_R2_one r c' hc' hr)
    d₁ hd₁ (fun e he => hd e (List.mem_cons_of_mem _ he))
    (fun c' r' hh => (hr c' r' hh).1)
  show ∃ t, simpleCands (RItem.plus CClass.digit ::
    [RItem.opt (CClass.anyIn [',']), RItem.star CClass.digit,
     RItem.opt (CClass.anyIn ['.']), RItem.plus CClass.digit])
    ((c :: d₁) ++ r) = (c :: d₁, r) :: t
  rw [List.cons_append, cands_plus_eq _ _ _ _ hc, ht]
  exact ⟨t.map (fun pr => (c :: pr.1, pr.2)), by rw [List.map_cons]⟩

/-- `\.?\d*` consumes nothing on a guarded remainder. -/
theorem cands_optdot_star (r : List Char)
    (hr : ∀ c r', r = c :: r' → c.isDigit = false ∧ c ≠ '.') :
    simpleCands [RItem.opt (CClass.anyIn ['.']), RItem.star CClass.digit] r =
      [([], r)] := by
  have hstar : simpleCands [RItem.star CClass.digit] r = [([], r)] := by
    rw [cands_star_only]
    exact starSplits_guard _ _ (fun c r' hh => (hr c r' hh).1)
  cases r with
  | nil => rfl
  | cons c r' =>
      obtain ⟨h1, h2⟩ := hr c r' rfl
      have hdot : (CClass.anyIn ['.']).test c = false := by
        show (['.'].contains c) = false
        exact notin_contains (fun d hd => by
          rw [List.mem_singleton.mp hd]; exact h2)
      have hskip : simpleCands [RItem.opt (CClass.anyIn ['.']),
          RItem.star CClass.digit] (c :: r') =
          simpleCands [RItem.star CClass.digit] (c :: r') := by
        simp [simpleCands, hdot]
      rw [hskip, hstar]

/-- Head of the candidates of the dimension group `(\d+\.?\d*)` on a
digit run followed by a guarded remainder. -/
theorem cands_dimGrp (w r : List Char) (hne : w ≠ [])
    (hw : ∀ c ∈ w, c.isDigit = true)
    (hr : ∀ c r', r = c :: r' → c.isDigit = false ∧ c ≠ '.') :
    ∃ t, simpleCands dimGrp (w ++ r) = (w, r) :: t := by
  obtain ⟨c, w', rfl⟩ : ∃ c w', w = c :: w' := by
    cases w with
    | nil => exact absurd rfl hne
    | cons c w' => exact ⟨c, w', rfl⟩
  have hc : CClass.digit.test c = true := hw c (List.mem_cons_self _ _)
  obtain ⟨t, ht⟩ := starSplits_digits w' r
    (fun d hd => hw d (List.mem_cons_of_mem _ hd))
    (fun d r' hh => (hr d r' hh).1)
  show ∃ t, simpleCands (RItem.plus CClass.digit ::
    [RItem.opt (CClass.anyIn ['.']), RItem.star CClass.digit])
    ((c :: w') ++ r) = (c :: w', r) :: t
  rw [List.cons_append, cands_plus_eq _ _ _ _ hc]
  have hflat : simpleCands (RItem.star CClass.digit ::
      [RItem.opt (CClass.anyIn ['.']), RItem.star CClass.digit]) (w' ++ r) =
      (starSplits CClass.digit (w' ++ r)).flatMap
        (fun sp => (simpleCands [RItem.opt (CClass.anyIn ['.']),
          RItem.star CClass.digit] sp.2).map
            (fun pr => (sp.1 ++ pr.1, pr.2))) := rfl
  rw [hflat, ht, List.flatMap_cons, cands_optdot_star r hr]
  refine ⟨(t.flatMap (fun sp => (simpleCands [RItem.opt (CClass.anyIn ['.']),
    RItem.star CClass.digit] sp.2).map
      (fun pr => (sp.1 ++ pr.1, pr.2)))).map (fun pr => (c :: pr.1, pr.2)), ?_⟩
  simp

theorem firstSome_cons_some {α : Type} (a : α) (l : List (Option α)) :
    firstSome (some a :: l) = some a := rfl

theorem firstSome_singleton {α : Type} (x : Option α) : firstSome [x] = x := by
  cases x <;> rfl

/-- `float()` of a bare digit run. -/
theorem pyFloatChars_digits (d : List Char) (hne : d ≠ [])
    (hd : ∀ c ∈ d, c.isDigit = true) :
    pyFloatChars d = some (Rat.divInt (digitsToNat d) 1) := by
  obtain ⟨c, d', rfl⟩ : ∃ c d', d = c :: d' := by
    cases d with
    | nil => exact absurd rfl hne
    | cons c d' => exact ⟨c, d', rfl⟩
  have hc : c.isDigit = true := hd c (List.mem_cons_self _ _)
  have h1 : List.dropWhile isPySpace (c :: d') = c :: d' := by
    simp [List.dropWhile_cons, digit_not_space hc]
  obtain ⟨x, t, hx⟩ : ∃ x t, (c :: d').reverse = x :: t := by
    cases hrev : (c :: d').reverse with
    | nil =>
        exfalso
        have := congrArg List.length hrev
        simp at this
    | cons x t => exact ⟨x, t, rfl⟩
  have hxd : x.isDigit = true :=
    hd x (List.mem_reverse.mp (hx ▸ List.mem_cons_self _ _))
  have h2 : ((c :: d').reverse.dropWhile isPySpace).reverse = c :: d' := by
    rw [hx]
    rw [List.dropWhile_cons]
    rw [digit_not_space hxd]
    rw [← hx]
    simp
  have hm : ¬ c = '-' := digit_ne hc (by decide)
  have hp : ¬ c = '+' := digit_ne hc (by decide)
  have h3 : List.takeWhile Char.isDigit (c :: d') = c :: d' :=
    List.takeWhile_eq_self_iff.mpr hd
  have h4 : List.dropWhile Char.isDigit (c :: d') = [] :=
    List.dropWhile_eq_nil_iff.mpr hd
  simp only [pyFloatChars, h1, h2, hm, hp, if_false, h3, h4]
  simp

/-- The candidates of the `\s*[x×]\s*` separator of the first dimension
pattern on `" x "` followed by text starting with a digit. -/
theorem cands_dimMid (h₀ : Char) (h' : List Char) (hdig : h₀.isDigit = true) :
    simpleCands [RItem.star CClass.space, RItem.one xCls,
      RItem.star CClass.space] (' ' :: 'x' :: ' ' :: h₀ :: h') =
      [([' ', 'x', ' '], h₀ :: h'), ([' ', 'x'], ' ' :: h₀ :: h')] := by
  have hns : isPySpace h₀ = false := digit_not_space hdig
  have hss : starSplits CClass.space (h₀ :: h') = [([], h₀ :: h')] :=
    starSplits_guard _ _ (fun c r' hh2 => by
      injection hh2 with e1 e2
      subst e1
      exact hns)
  have hsp : isPySpace ' ' = true := by decide
  have hx1 : isPySpace 'x' = false := by decide
  simp +decide [simpleCands, starSplits, hss, xCls, CClass.test, hns, hsp, hx1]

/-- The first dimension pattern `(\d+\.?\d*)\s*[x×]\s*(\d+\.?\d*)`
matches `"<w> x <h>"` at position 0, capturing the two digit runs. -/
theorem matchTwoGrp_dims (w h : List Char) (hwne : w ≠ []) (hhne : h ≠ [])
    (hw : ∀ c ∈ w, c.isDigit = true) (hh : ∀ c ∈ h, c.isDigit = true) :
    matchTwoGrp [] dimGrp
      [RItem.star CClass.space, RItem.one xCls, RItem.star CClass.space]
      dimGrp [] (w ++ (' ' :: 'x' :: ' ' :: h)) =
      some (String.mk w, String.mk h) := by
  obtain ⟨h₀, h', rfl⟩ : ∃ h₀ h', h = h₀ :: h' := by
    cases h with
    | nil => exact absurd rfl hhne
    | cons h₀ h' => exact ⟨h₀, h', rfl⟩
  have hd₀ : h₀.isDigit = true := hh h₀ (List.mem_cons_self _ _)
  obtain ⟨t1, ht1⟩ := cands_dimGrp w (' ' :: 'x' :: ' ' :: h₀ :: h') hwne hw
    (fun c r' hh2 => by
      injection hh2 with e1 e2
      subst e1
      exact ⟨by decide, by decide⟩)
  obtain ⟨t2, ht2⟩ := cands_dimGrp (h₀ :: h') [] (by simp) hh
    (fun c r' hh2 => List.noConfusion hh2)
  have ht2' : simpleCands dimGrp (h₀ :: h') =
      (h₀ :: h', ([] : List Char)) :: t2 := by
    rwa [List.append_nil] at ht2
  have hmid := cands_dimMid h₀ h' hd₀
  have hpre : simpleCands ([] : List RItem)
      (w ++ (' ' :: 'x' :: ' ' :: h₀ :: h')) =
      [([], w ++ (' ' :: 'x' :: ' ' :: h₀ :: h'))] := rfl
  have hnil2 : simpleCands ([] : List RItem) ([] : List Char) = [([], [])] :=
    rfl
  unfold matchTwoGrp
  rw [hpre, List.map_cons, List.map_nil, firstSome_singleton, ht1,
    List.map_cons, hmid, List.map_cons, ht2', List.map_cons, hnil2]
  simp [firstSome]

theorem searchTwoGrp_dims (w h : List Char) (hwne : w ≠ []) (hhne : h ≠ [])
    (hw : ∀ c ∈ w, c.isDigit = true) (hh : ∀ c ∈ h, c.isDigit = true) :
    searchTwoGrp [] dimGrp
      [RItem.star CClass.space, RItem.one xCls, RItem.star CClass.space]
      dimGrp [] (w ++ (' ' :: 'x' :: ' ' :: h)) =
      some (String.mk w, String.mk h) := by
  obtain ⟨w₀, w', rfl⟩ : ∃ w₀ w', w = w₀ :: w' := by
    cases w with
    | nil => exact absurd rfl hwne
    | cons w₀ w' => exact ⟨w₀, w', rfl⟩
  have hm := matchTwoGrp_dims (w₀ :: w') h hwne hhne hw hh
  rw [List.cons_append] at hm ⊢
  show (match matchTwoGrp [] dimGrp
      [RItem.star CClass.space, RItem.one xCls, RItem.star CClass.space]
      dimGrp [] (w₀ :: (w' ++ (' ' :: 'x' :: ' ' :: h))) with
    | some r => some r
    | none => searchTwoGrp [] dimGrp
        [RItem.star CClass.space, RItem.one xCls, RItem.star CClass.space]
        dimGrp [] (w' ++ (' ' :: 'x' :: ' ' :: h))) =
    some (String.mk (w₀ :: w'), String.mk h)
  rw [hm]

theorem tryDimPatterns_none (ps : List (List RItem × List RItem × List RItem ×
      List RItem × List RItem)) (s : List Char) (d : Record)
    (h : ∀ p ∈ ps, searchTwoGrp p.1 p.2.1 p.2.2.1 p.2.2.2.1 p.2.2.2.2 s =
      none) :
    tryDimPatterns ps s d = d := by
  induction ps with
  | nil => rfl
  | cons p ps ih =>
      obtain ⟨pre, g1, mid, g2, post⟩ := p
      have hp := h (pre, g1, mid, g2, post) (List.mem_cons_self _ _)
      simp only [tryDimPatterns, hp]
      exact ih (fun q hq => h q (List.mem_cons_of_mem _ hq))

/-- C6: `extract_dimensions` maps `"<w> x <h>"` (digit runs around the
separator) to `{width: w, height: h}` as numbers, captured by the first
matching pattern; `'36" x 48"'` parses via the quote-tolerant fourth
pattern; and when no pattern matches anywhere in the input both fields
stay `None`. -/
theorem extract_dimensions_spec :
    (∀ w h : List Char, w ≠ [] → h ≠ [] →
      (∀ c ∈ w, c.isDigit = true) → (∀ c ∈ h, c.isDigit = true) →
      extract_dimensions (String.mk w ++ " x " ++ String.mk h) =
        [("width", Value.vNum (Rat.divInt (digitsToNat w) 1)),
         ("height", Value.vNum (Rat.divInt (digitsToNat h) 1))]) ∧
    extract_dimensions "36\" x 48\"" =
      [("width", Value.vNum 36), ("height", Value.vNum 48)] ∧
    (∀ s : String,
      (∀ p ∈ dimPatterns,
        searchTwoGrp p.1 p.2.1 p.2.2.1 p.2.2.2.1 p.2.2.2.2 s.toList = none) →
      extract_dimensions s =
        [("width", Value.vNone), ("height", Value.vNone)]) := by
  refine ⟨?_, by decide, ?_⟩
  · intro w h hwne hhne hw hh
    have htl : (String.mk w ++ " x " ++ String.mk h).toList =
        w ++ (' ' :: 'x' :: ' ' :: h) := by
      simp [String.toList, String.data_append]
    have hs := searchTwoGrp_dims w h hwne hhne hw hh
    unfold extract_dimensions
    rw [htl]
    show tryDimPatterns dimPatterns (w ++ (' ' :: 'x' :: ' ' :: h))
      [("width", Value.vNone), ("height", Value.vNone)] = _
    rw [show dimPatterns = ([], dimGrp,
      [RItem.star CClass.space, RItem.one xCls, RItem.star CClass.space],
      dimGrp, ([] : List RItem)) :: dimPatterns.tail from rfl]
    simp only [tryDimPatterns, hs]
    rw [show (String.mk w).toList = w from rfl,
      show (String.mk h).toList = h from rfl,
      pyFloatChars_digits w hwne hw, pyFloatChars_digits h hhne hh]
    simp [setField]
  · intro s hnone
    unfold extract_dimensions
    exact tryDimPatterns_none dimPatterns s.toList _ hnone

/-- Witness for C6 at concrete digit runs. -/
theorem extract_dimensions_spec_witness :
    extract_dimensions (String.mk ['7', '2'] ++ " x " ++ String.mk ['9', '6']) =
      [("width", Value.vNum (Rat.divInt 72 1)),
       ("height", Value.vNum (Rat.divInt 96 1))] ∧
    extract_dimensions "zzz" =
      [("width", Value.vNone), ("height", Value.vNone)] := by
  constructor
  · have h := extract_dimensions_spec.1 ['7', '2'] ['9', '6']
      (by decide) (by decide)
      (by intro c hc; fin_cases hc <;> decide)
      (by intro c hc; fin_cases hc <;> decide)
    simpa using h
  · exact extract_dimensions_spec.2.2 "zzz" (by decide)

/-- The first price pattern `\$?(\d+,?\d*\.?\d+)` matches at a `$` sign
followed by a digit run of length ≥ 2, capturing the run. -/
theorem matchOneGrp_dollar (d : List Char) (h2 : 2 ≤ d.length)
    (hd : ∀ c ∈ d, c.isDigit = true) :
    matchOneGrp [RItem.opt (CClass.anyIn ['$'])] priceGrp [] ('$' :: d) =
      some (String.mk d) := by
  obtain ⟨t, ht⟩ := cands_priceGrp d [] h2 hd
    (fun c r' hh => List.noConfusion hh)
  have ht' : simpleCands priceGrp d = (d, ([] : List Char)) :: t := by
    rwa [List.append_nil] at ht
  have hpre : simpleCands [RItem.opt (CClass.anyIn ['$'])] ('$' :: d) =
      [(['$'], d), ([], '$' :: d)] := rfl
  have hnil2 : simpleCands ([] : List RItem) ([] : List Char) = [([], [])] :=
    rfl
  unfold matchOneGrp
  rw [hpre, List.map_cons, ht', List.map_cons, hnil2]
  simp [firstSome]

theorem tryPricePatterns_none (ps : List (List RItem × List RItem × List RItem))
    (s : List Char)
    (h : ∀ p ∈ ps, searchOneGrp p.1 p.2.1 p.2.2 s = none) :
    tryPricePatterns ps s = none := by
  induction ps with
  | nil => rfl
  | cons p ps ih =>
      obtain ⟨pre, g, post⟩ := p
      have hp := h (pre, g, post) (List.mem_cons_self _ _)
      simp only [tryPricePatterns, hp]
      exact ih (fun q hq => h q (List.mem_cons_of_mem _ hq))

/-- `re.search` of the first price pattern on `"Price: $<digits>"` steps
over the non-matching prefix and captures the digits after the `$`. -/
theorem searchOneGrp_price (d : List Char) (h2 : 2 ≤ d.length)
    (hd : ∀ c ∈ d, c.isDigit = true) :
    searchOneGrp [RItem.opt (CClass.anyIn ['$'])] priceGrp []
      ("Price: $".toList ++ d) = some (String.mk d) := by
  have hstep : searchOneGrp [RItem.opt (CClass.anyIn ['$'])] priceGrp []
      ("Price: $".toList ++ d) =
      searchOneGrp [RItem.opt (CClass.anyIn ['$'])] priceGrp [] ('$' :: d) :=
    rfl
  rw [hstep]
  have hm := matchOneGrp_dollar d h2 hd
  show (match matchOneGrp [RItem.opt (CClass.anyIn ['$'])] priceGrp []
      ('$' :: d) with
    | some r => some r
    | none => searchOneGrp [RItem.opt (CClass.anyIn ['$'])] priceGrp [] d) =
    some (String.mk d)
  rw [hm]

/-- C5: `extract_price` on `"Price: $<digits>"` returns the number
captured by the FIRST pattern (the plain-currency one — the `Price:`
pattern never gets a turn, demonstrating first-match-wins); the
documented examples hold, including the comma-stripped `1,234.50` and a
first-pattern-beats-later-patterns instance; and when no pattern matches
the comma-stripped input the result is none. -/
theorem extract_price_spec :
    (∀ d : List Char, 2 ≤ d.length → (∀ c ∈ d, c.isDigit = true) →
      extract_price ("Price: $" ++ String.mk d) =
        some (Rat.divInt (digitsToNat d) 1)) ∧
    extract_price "Price: $1,234.50" = some (Rat.divInt 2469 2) ∧
    extract_price "no price here" = none ∧
    extract_price "20 Price: 30" = some 20 ∧
    (∀ s : String,
      (∀ p ∈ pricePatterns,
        searchOneGrp p.1 p.2.1 p.2.2 (stripCommas s.toList) = none) →
      extract_price s = none) := by
  refine ⟨?_, by decide, by decide, by decide, ?_⟩
  · intro d h2 hd
    have hne : d ≠ [] := by
      intro hh
      rw [hh] at h2
      simp at h2
    have hdstrip : stripCommas d = d :=
      List.filter_eq_self.mpr (fun c hc =>
        decide_eq_true (digit_ne (hd c hc) (by decide)))
    have htext : ("Price: $" ++ String.mk d) ≠ "" := by
      intro hh
      have hlen := congrArg String.length hh
      rw [String.length_append] at hlen
      have h8 : ("Price: $" : String).length = 8 := rfl
      have h0 : ("" : String).length = 0 := rfl
      omega
    have htl : ("Price: $" ++ String.mk d).toList = "Price: $".toList ++ d := by
      simp [String.toList, String.data_append]
    have hstrip : stripCommas ("Price: $".toList ++ d) =
        "Price: $".toList ++ d := by
      show ("Price: $".toList ++ d).filter (fun c => c ≠ ',') =
        "Price: $".toList ++ d
      rw [List.filter_append]
      rw [show List.filter (fun c => c ≠ ',') "Price: $".toList =
        "Price: $".toList from by decide]
      rw [show d.filter (fun c => c ≠ ',') = d from hdstrip]
    unfold extract_price
    rw [if_neg htext, htl, hstrip]
    rw [show pricePatterns = ([RItem.opt (CClass.anyIn ['$'])], priceGrp,
      ([] : List RItem)) :: pricePatterns.tail from rfl]
    simp only [tryPricePatterns, searchOneGrp_price d h2 hd]
    rw [show (String.mk d).toList = d from rfl, hdstrip,
      pyFloatChars_digits d hne hd]
  · intro s hnone
    unfold extract_price
    by_cases hs : s = ""
    · (rw [if_pos hs])
    · rw [if_neg hs]
      exact tryPricePatterns_none pricePatterns (stripCommas s.toList) hnone

/-- Witness for C5 at a concrete digit run and a concrete non-matching
string. -/
theorem extract_price_spec_witness :
    extract_price ("Price: $" ++ String.mk ['4', '2']) =
      some (Rat.divInt 42 1) ∧
    extract_price "xyz" = none := by
  constructor
  · exact extract_price_spec.1 ['4', '2'] (by decide)
      (by intro c hc; fin_cases hc <;> decide)
  · exact extract_price_spec.2.2.2.2 "xyz" (by
      intro p hp
      fin_cases hp <;> decide)
